import Mathlib

/-!
Verification development for SSOQL (Super Simple Object Query Language).

This file gives a shallow embedding, in Lean 4, of the SSOQL engine:
the tokenizer (src/src/tokenizer/tokenizer.ts), the parser
(src/parser/parser.ts), and the executor (src/src/executor/executor.ts,
first revision — the one the claim line numbers refer to), together with
the createQuery wrapper (src/ssoql.ts) that sanitizes results.

Modelling conventions:
* JavaScript values are modelled by the inductive type Value
  (null, undefined, boolean, number, string, array, object).
* JavaScript numbers are modelled by JNum: an exact rational together
  with the special values NaN, Infinity and -Infinity.  Exact rational
  arithmetic replaces IEEE double arithmetic; no claim under
  consideration depends on floating-point rounding.  Math.sqrt is
  modelled by Rat.sqrt (exact only on perfect squares); no claim
  depends on the value of STANDARD_DEVIATION.
* JavaScript Maps and objects are modelled by insertion-ordered
  association lists.
* Thrown exceptions are modelled by the Except monad with error type Err.
* The executor keeps two variable stores (the context's clone and the
  executor's global one) that receive identical writes and start equal
  at each block; they are modelled by a single store threaded through
  execution.
-/

set_option maxHeartbeats 4000000
set_option maxRecDepth 8000

namespace SSOQL

/-- JavaScript number: a finite (exact) rational, or NaN, or an infinity. -/
inductive JNum where
  | fin (q : ℚ)
  | nan
  | inf
  | ninf
  deriving DecidableEq, Repr

/-- JavaScript value, as produced by parsing a JSON document plus the
undefined value that property access on a missing key yields. -/
inductive Value where
  | vnull
  | vundef
  | vbool (b : Bool)
  | vnum (n : JNum)
  | vstr (s : String)
  | varr (items : List Value)
  | vobj (fields : List (String × Value))
  deriving Repr

mutual

/-- Decidable equality on values (structural; JS object identity is not
modelled — no claim depends on reference equality of records). -/
def Value.deq : (a b : Value) → Decidable (a = b)
  | .vnull, .vnull => isTrue rfl
  | .vundef, .vundef => isTrue rfl
  | .vbool a, .vbool b =>
      match decEq a b with
      | isTrue h => isTrue (by rw [h])
      | isFalse h => isFalse (by intro hc; cases hc; exact h rfl)
  | .vnum a, .vnum b =>
      match decEq a b with
      | isTrue h => isTrue (by rw [h])
      | isFalse h => isFalse (by intro hc; cases hc; exact h rfl)
  | .vstr a, .vstr b =>
      match decEq a b with
      | isTrue h => isTrue (by rw [h])
      | isFalse h => isFalse (by intro hc; cases hc; exact h rfl)
  | .varr a, .varr b =>
      match Value.deqList a b with
      | isTrue h => isTrue (by rw [h])
      | isFalse h => isFalse (by intro hc; cases hc; exact h rfl)
  | .vobj a, .vobj b =>
      match Value.deqFields a b with
      | isTrue h => isTrue (by rw [h])
      | isFalse h => isFalse (by intro hc; cases hc; exact h rfl)
  | .vnull, .vundef | .vnull, .vbool _ | .vnull, .vnum _ | .vnull, .vstr _
  | .vnull, .varr _ | .vnull, .vobj _
  | .vundef, .vnull | .vundef, .vbool _ | .vundef, .vnum _ | .vundef, .vstr _
  | .vundef, .varr _ | .vundef, .vobj _
  | .vbool _, .vnull | .vbool _, .vundef | .vbool _, .vnum _ | .vbool _, .vstr _
  | .vbool _, .varr _ | .vbool _, .vobj _
  | .vnum _, .vnull | .vnum _, .vundef | .vnum _, .vbool _ | .vnum _, .vstr _
  | .vnum _, .varr _ | .vnum _, .vobj _
  | .vstr _, .vnull | .vstr _, .vundef | .vstr _, .vbool _ | .vstr _, .vnum _
  | .vstr _, .varr _ | .vstr _, .vobj _
  | .varr _, .vnull | .varr _, .vundef | .varr _, .vbool _ | .varr _, .vnum _
  | .varr _, .vstr _ | .varr _, .vobj _
  | .vobj _, .vnull | .vobj _, .vundef | .vobj _, .vbool _ | .vobj _, .vnum _
  | .vobj _, .vstr _ | .vobj _, .varr _ => isFalse (by intro hc; cases hc)

/-- Decidable equality on value lists. -/
def Value.deqList : (a b : List Value) → Decidable (a = b)
  | [], [] => isTrue rfl
  | [], _ :: _ => isFalse (by intro hc; cases hc)
  | _ :: _, [] => isFalse (by intro hc; cases hc)
  | x :: xs, y :: ys =>
      match Value.deq x y with
      | isTrue h1 =>
          match Value.deqList xs ys with
          | isTrue h2 => isTrue (by rw [h1, h2])
          | isFalse h2 => isFalse (by intro hc; cases hc; exact h2 rfl)
      | isFalse h1 => isFalse (by intro hc; cases hc; exact h1 rfl)

/-- Decidable equality on field lists. -/
def Value.deqFields : (a b : List (String × Value)) → Decidable (a = b)
  | [], [] => isTrue rfl
  | [], _ :: _ => isFalse (by intro hc; cases hc)
  | _ :: _, [] => isFalse (by intro hc; cases hc)
  | (k, x) :: xs, (l, y) :: ys =>
      match decEq k l with
      | isTrue hk =>
          match Value.deq x y with
          | isTrue h1 =>
              match Value.deqFields xs ys with
              | isTrue h2 => isTrue (by rw [hk, h1, h2])
              | isFalse h2 => isFalse (by intro hc; cases hc; exact h2 rfl)
          | isFalse h1 => isFalse (by intro hc; cases hc; exact h1 rfl)
      | isFalse hk => isFalse (by intro hc; cases hc; exact hk rfl)

end

instance : DecidableEq Value := Value.deq

instance : BEq Value := ⟨fun a b => decide (a = b)⟩

/-- True when the value is the undefined value. -/
def Value.isUndef : Value → Bool
  | .vundef => true
  | _ => false

/-- True when the value is null. -/
def Value.isNull : Value → Bool
  | .vnull => true
  | _ => false

/-- JavaScript test used by the executor to pick the scalar path:
typeof item is object and item is not null, i.e. the value is an
array or a plain object (null is excluded explicitly in the source). -/
def Value.isObjLike : Value → Bool
  | .varr _ => true
  | .vobj _ => true
  | _ => false

/-- Primitive result values as the createQuery wrapper classifies them:
null, string, number or boolean. -/
def Value.isPrim : Value → Bool
  | .vnull => true
  | .vbool _ => true
  | .vnum _ => true
  | .vstr _ => true
  | _ => false

/-- Helper: is a decimal digit. -/
def isDigitCh (c : Char) : Bool := '0' ≤ c && c ≤ '9'

/-- Helper: letter or underscore (the tokenizer's isAlpha). -/
def isAlphaCh (c : Char) : Bool :=
  ('a' ≤ c && c ≤ 'z') || ('A' ≤ c && c ≤ 'Z') || c == '_'

/-- Helper: the tokenizer's isAlphaNumeric. -/
def isAlphaNumCh (c : Char) : Bool := isAlphaCh c || isDigitCh c

/-- Value of a digit character. -/
def digitVal (c : Char) : ℕ := c.toNat - '0'.toNat

/-- Natural number denoted by a list of digit characters (empty ↦ 0). -/
def digitsToNat (ds : List Char) : ℕ :=
  ds.foldl (fun acc c => acc * 10 + digitVal c) 0

/-- Rational denoted by integer digits and fractional digits. -/
def decimalToRat (ip fp : List Char) : ℚ :=
  (digitsToNat ip : ℚ) + (digitsToNat fp : ℚ) / ((10 : ℚ) ^ fp.length)

/-- JavaScript Number() on the trimmed body of a string: optional sign,
then Infinity, digits, digits.digits, .digits or digits. — otherwise NaN.
Hexadecimal and exponent forms are not modelled (no claim uses them). -/
def strBodyToNum (cs : List Char) : JNum :=
  let core : List Char → Option ℚ := fun body =>
    let ip := body.takeWhile isDigitCh
    let rest := body.dropWhile isDigitCh
    match rest with
    | [] => if ip.isEmpty then none else some (decimalToRat ip [])
    | '.' :: frac =>
        let fp := frac.takeWhile isDigitCh
        let rest2 := frac.dropWhile isDigitCh
        if rest2.isEmpty && !(ip.isEmpty && fp.isEmpty) then
          some (decimalToRat ip fp)
        else none
    | _ => none
  match cs with
  | [] => .fin 0
  | '+' :: body =>
      if body = "Infinity".data then .inf
      else match core body with
        | some q => .fin q
        | none => .nan
  | '-' :: body =>
      if body = "Infinity".data then .ninf
      else match core body with
        | some q => .fin (-q)
        | none => .nan
  | body =>
      if body = "Infinity".data then .inf
      else match core body with
        | some q => .fin q
        | none => .nan

/-- Whitespace trimmed by JavaScript ToNumber on strings. -/
def isJsSpace (c : Char) : Bool :=
  c == ' ' || c == '\t' || c == '\n' || c == '\r'

/-- JavaScript Number() applied to a string. -/
def strToNum (s : String) : JNum :=
  strBodyToNum ((s.data.dropWhile isJsSpace).reverse.dropWhile isJsSpace).reverse

/-- Smallest k ≤ 40 with den ∣ 10 ^ k, if any: the precision needed to
print a rational exactly in decimal. -/
def decExponent (den : ℕ) : Option ℕ :=
  (List.range 41).find? (fun k => den ∣ 10 ^ k)

/-- Render a natural number as decimal digits. -/
def natDigits (n : ℕ) : String := toString n

/-- Decimal rendering of a nonnegative rational with exactly k fractional
digits (k chosen so the expansion is exact, hence no trailing zeros when
k is minimal). -/
def ratDecimalCore (q : ℚ) (k : ℕ) : String :=
  let scaled : ℕ := (q.num.natAbs * 10 ^ k) / q.den
  let ip := scaled / 10 ^ k
  let fp := scaled % 10 ^ k
  if k = 0 then natDigits ip
  else
    let fpStr := natDigits fp
    let pad := String.mk (List.replicate (k - fpStr.length) '0')
    natDigits ip ++ "." ++ pad ++ fpStr

/-- JavaScript ToString of a finite number, modelled exactly for
rationals with terminating decimal expansions; other rationals (which
a double cannot hold exactly either) fall back to a num/den rendering —
no claim depends on that case. -/
def ratToString (q : ℚ) : String :=
  let body :=
    match decExponent q.den with
    | some k => ratDecimalCore |q| k
    | none => natDigits q.num.natAbs ++ "/" ++ natDigits q.den
  if q < 0 then "-" ++ body else body

/-- JavaScript ToString of a number. -/
def jnumToString : JNum → String
  | .fin q => ratToString q
  | .nan => "NaN"
  | .inf => "Infinity"
  | .ninf => "-Infinity"

mutual

/-- JavaScript String(v). Arrays join their elements with commas
(null/undefined elements render as empty); objects render as
[object Object]. -/
def jsToString : Value → String
  | .vnull => "null"
  | .vundef => "undefined"
  | .vbool b => cond b "true" "false"
  | .vnum n => jnumToString n
  | .vstr s => s
  | .varr items => jsArrJoin items
  | .vobj _ => "[object Object]"

/-- Array.prototype.toString: elements joined by commas, null and
undefined elements printing as empty. -/
def jsArrJoin : List Value → String
  | [] => ""
  | v :: rest =>
      (match v with
       | .vnull => ""
       | .vundef => ""
       | w => jsToString w) ++
      (match rest with
       | [] => ""
       | _ => "," ++ jsArrJoin rest)

end

/-- JavaScript Number(v): the ToNumber coercion. -/
def toNum : Value → JNum
  | .vnum n => n
  | .vnull => .fin 0
  | .vundef => .nan
  | .vbool b => .fin (cond b 1 0)
  | .vstr s => strToNum s
  | .varr items => strToNum (jsArrJoin items)
  | .vobj _ => .nan

/-- Negation of a JavaScript number. -/
def jneg : JNum → JNum
  | .fin q => .fin (-q)
  | .nan => .nan
  | .inf => .ninf
  | .ninf => .inf

/-- Addition of JavaScript numbers. -/
def jadd : JNum → JNum → JNum
  | .nan, _ => .nan
  | _, .nan => .nan
  | .inf, .ninf => .nan
  | .ninf, .inf => .nan
  | .inf, _ => .inf
  | _, .inf => .inf
  | .ninf, _ => .ninf
  | _, .ninf => .ninf
  | .fin a, .fin b => .fin (a + b)

/-- Subtraction of JavaScript numbers. -/
def jsub (a b : JNum) : JNum := jadd a (jneg b)

/-- Multiplication of JavaScript numbers. -/
def jmul : JNum → JNum → JNum
  | .nan, _ => .nan
  | _, .nan => .nan
  | .fin a, .fin b => .fin (a * b)
  | .inf, .fin b => if b = 0 then .nan else if 0 < b then .inf else .ninf
  | .ninf, .fin b => if b = 0 then .nan else if 0 < b then .ninf else .inf
  | .fin a, .inf => if a = 0 then .nan else if 0 < a then .inf else .ninf
  | .fin a, .ninf => if a = 0 then .nan else if 0 < a then .ninf else .inf
  | .inf, .inf => .inf
  | .inf, .ninf => .ninf
  | .ninf, .inf => .ninf
  | .ninf, .ninf => .inf

/-- Division of JavaScript numbers (finite by zero gives a signed
infinity, zero by zero gives NaN). -/
def jdiv : JNum → JNum → JNum
  | .nan, _ => .nan
  | _, .nan => .nan
  | .fin a, .fin b =>
      if b = 0 then (if a = 0 then .nan else if 0 < a then .inf else .ninf)
      else .fin (a / b)
  | .fin _, .inf => .fin 0
  | .fin _, .ninf => .fin 0
  | .inf, .fin b => if b < 0 then .ninf else .inf
  | .ninf, .fin b => if b < 0 then .inf else .ninf
  | .inf, .inf => .nan
  | .inf, .ninf => .nan
  | .ninf, .inf => .nan
  | .ninf, .ninf => .nan

/-- Strict less-than on JavaScript numbers (false on NaN operands). -/
def jlt : JNum → JNum → Bool
  | .nan, _ => false
  | _, .nan => false
  | .fin a, .fin b => a < b
  | .fin _, .inf => true
  | .fin _, .ninf => false
  | .inf, _ => false
  | .ninf, .ninf => false
  | .ninf, _ => true

/-- Math.sqrt, modelled by Rat.sqrt on finite values (see file comment). -/
def jsqrt : JNum → JNum
  | .fin q => if q < 0 then .nan else .fin (Rat.sqrt q)
  | .nan => .nan
  | .inf => .inf
  | .ninf => .nan

/-- JavaScript truthiness test (the source uses !x to detect a missing
path segment). -/
def jsFalsy : Value → Bool
  | .vundef => true
  | .vnull => true
  | .vbool b => !b
  | .vnum n =>
      match n with
      | .fin q => q = 0
      | .nan => true
      | _ => false
  | .vstr s => s.isEmpty
  | .varr _ => false
  | .vobj _ => false

/-- JavaScript property access v[key]: association lookup on objects,
numeric-string indexing on arrays, undefined otherwise (string receivers
and the array length property are not modelled — no claim uses them). -/
def jsGet : Value → String → Value
  | .vobj fields, key => ((fields.find? (fun kv => kv.1 = key)).map (·.2)).getD .vundef
  | .varr items, key =>
      match key.toNat? with
      | some i => (items.get? i).getD .vundef
      | none => .vundef
  | _, _ => (.vundef : Value)

/-- Object.keys: field names in insertion order for objects (duplicate
keys keep the first occurrence; the integer-key reordering of JS is not
modelled — no claim involves it), index strings for arrays. -/
def jsKeys : Value → List String
  | .vobj fields => (fields.map (·.1)).eraseDups
  | .varr items => (List.range items.length).map toString
  | _ => []

/-- JSON string escaping for the characters the engine can encounter. -/
def jsonEscapeChar (c : Char) : String :=
  if c = '"' then "\\\""
  else if c = '\\' then "\\\\"
  else if c = '\n' then "\\n"
  else if c = '\t' then "\\t"
  else if c = '\r' then "\\r"
  else String.mk [c]

/-- JSON escape of a whole string. -/
def jsonEscape (s : String) : String :=
  s.data.foldl (fun acc c => acc ++ jsonEscapeChar c) ""

mutual

/-- JSON.stringify in a position where a value is demanded: NaN and the
infinities print as null, undefined prints as null (its array-element
behaviour; at top level the callers below never pass undefined). -/
def stringify : Value → String
  | .vnull => "null"
  | .vundef => "null"
  | .vbool b => cond b "true" "false"
  | .vnum n =>
      match n with
      | .fin q => ratToString q
      | _ => "null"
  | .vstr s => "\"" ++ jsonEscape s ++ "\""
  | .varr items => "[" ++ stringifyArr items ++ "]"
  | .vobj fields => "\x7b" ++ stringifyObj fields ++ "\x7d"

/-- JSON.stringify of array elements, comma separated. -/
def stringifyArr : List Value → String
  | [] => ""
  | [v] => stringify v
  | v :: rest => stringify v ++ "," ++ stringifyArr rest

/-- JSON.stringify of object entries: undefined-valued entries are
omitted entirely. -/
def stringifyObj : List (String × Value) → String
  | [] => ""
  | (k, v) :: rest =>
      if v.isUndef then stringifyObj rest
      else
        let entry := "\"" ++ jsonEscape k ++ "\":" ++ stringify v
        let r := stringifyObj rest
        if r = "" then entry else entry ++ "," ++ r

end

/-! ## Tokenizer (src/src/tokenizer/tokenizer.ts) -/

/-- Token kinds of the SSOQL lexer. -/
inductive TokType where
  | use | query | select | each | whereKw | returnKw
  | count | sum | divide | multiply | subtract | average | median
  | minKw | maxKw | percentOf | mostFrequent | leastFrequent | unique
  | standardDeviation | variance | range
  | containsOp | notContainsOp
  | variable | asterisk | comma | dot
  | equals | notEquals | greaterThan | lessThan
  | greaterThanEquals | lessThanEquals
  | lbracket | rbracket | lparen | rparen
  | ampersand | pipe | notOp
  | identifier | stringLit | numberLit | booleanLit | nullLit
  | comment | eof | unknown
  deriving DecidableEq, Repr

/-- A token: kind and lexeme value (source positions are tracked by the
original only for error messages; no claim concerns them). -/
structure Token where
  type : TokType
  value : String
  deriving DecidableEq, Repr

/-- Keyword table of the tokenizer's identifier scanner. -/
def keywordToken (text : String) : Token :=
  if text = "USE" then ⟨.use, text⟩
  else if text = "QUERY" then ⟨.query, text⟩
  else if text = "SELECT" then ⟨.select, text⟩
  else if text = "EACH" then ⟨.each, text⟩
  else if text = "WHERE" then ⟨.whereKw, text⟩
  else if text = "RETURN" then ⟨.returnKw, text⟩
  else if text = "COUNT" then ⟨.count, text⟩
  else if text = "SUM" then ⟨.sum, text⟩
  else if text = "DIVIDE" then ⟨.divide, text⟩
  else if text = "MULTIPLY" then ⟨.multiply, text⟩
  else if text = "SUBTRACT" then ⟨.subtract, text⟩
  else if text = "AVERAGE" then ⟨.average, text⟩
  else if text = "MEDIAN" then ⟨.median, text⟩
  else if text = "MIN" then ⟨.minKw, text⟩
  else if text = "MAX" then ⟨.maxKw, text⟩
  else if text = "PERCENT_OF" then ⟨.percentOf, text⟩
  else if text = "MOST_FREQUENT" then ⟨.mostFrequent, text⟩
  else if text = "LEAST_FREQUENT" then ⟨.leastFrequent, text⟩
  else if text = "UNIQUE" then ⟨.unique, text⟩
  else if text = "STANDARD_DEVIATION" then ⟨.standardDeviation, text⟩
  else if text = "VARIANCE" then ⟨.variance, text⟩
  else if text = "RANGE" then ⟨.range, text⟩
  else if text = "CONTAINS" then ⟨.containsOp, text⟩
  else if text = "NOT_CONTAINS" then ⟨.notContainsOp, text⟩
  else if text = "true" then ⟨.booleanLit, "true"⟩
  else if text = "false" then ⟨.booleanLit, "false"⟩
  else if text = "null" then ⟨.nullLit, "null"⟩
  else ⟨.identifier, text⟩

/-- One pass of the scanner over the remaining characters, producing the
token list (without the final EOF token).  The fuel argument only makes
the recursion structural: every step consumes at least one character, so
the fuel supplied by tokenize (length + 1) is never exhausted. -/
def scanTokens : ℕ → List Char → List Token
  | 0, _ => []
  | _, [] => []
  | fuel + 1, c :: rest =>
    if c = '(' then ⟨.lparen, "("⟩ :: scanTokens fuel rest
    else if c = ')' then ⟨.rparen, ")"⟩ :: scanTokens fuel rest
    else if c = '[' then ⟨.lbracket, "["⟩ :: scanTokens fuel rest
    else if c = ']' then ⟨.rbracket, "]"⟩ :: scanTokens fuel rest
    else if c = ',' then ⟨.comma, ","⟩ :: scanTokens fuel rest
    else if c = '.' then ⟨.dot, "."⟩ :: scanTokens fuel rest
    else if c = '*' then ⟨.asterisk, "*"⟩ :: scanTokens fuel rest
    else if c = '&' then ⟨.ampersand, "&"⟩ :: scanTokens fuel rest
    else if c = '|' then ⟨.pipe, "|"⟩ :: scanTokens fuel rest
    else if c = '=' then ⟨.equals, "="⟩ :: scanTokens fuel rest
    else if c = '!' then
      match rest with
      | '=' :: rest2 => ⟨.notEquals, "!="⟩ :: scanTokens fuel rest2
      | _ => ⟨.notOp, "!"⟩ :: scanTokens fuel rest
    else if c = '>' then
      match rest with
      | '=' :: rest2 => ⟨.greaterThanEquals, ">="⟩ :: scanTokens fuel rest2
      | _ => ⟨.greaterThan, ">"⟩ :: scanTokens fuel rest
    else if c = '<' then
      match rest with
      | '=' :: rest2 => ⟨.lessThanEquals, "<="⟩ :: scanTokens fuel rest2
      | _ => ⟨.lessThan, "<"⟩ :: scanTokens fuel rest
    else if c = ' ' || c = '\r' || c = '\t' || c = '\n' then scanTokens fuel rest
    else if c = '"' || c = '\'' then
      let content := rest.takeWhile (fun x => x != c)
      match rest.dropWhile (fun x => x != c) with
      | [] => [⟨.unknown, String.mk (c :: content)⟩]
      | _ :: rest2 => ⟨.stringLit, String.mk content⟩ :: scanTokens fuel rest2
    else if c = '/' then
      match rest with
      | '/' :: rest2 =>
          ⟨.comment, ""⟩ :: scanTokens fuel (rest2.dropWhile (fun x => x != '\n'))
      | _ => ⟨.unknown, String.mk [c]⟩ :: scanTokens fuel rest
    else if c = '$' then
      let name := rest.takeWhile isAlphaNumCh
      ⟨.variable, String.mk (c :: name)⟩ :: scanTokens fuel (rest.dropWhile isAlphaNumCh)
    else if isDigitCh c then
      let ds := rest.takeWhile isDigitCh
      match rest.dropWhile isDigitCh with
      | '.' :: d2 :: rest3 =>
          if isDigitCh d2 then
            let ds2 := (d2 :: rest3).takeWhile isDigitCh
            ⟨.numberLit, String.mk (c :: ds ++ '.' :: ds2)⟩ ::
              scanTokens fuel ((d2 :: rest3).dropWhile isDigitCh)
          else ⟨.numberLit, String.mk (c :: ds)⟩ :: scanTokens fuel ('.' :: d2 :: rest3)
      | other => ⟨.numberLit, String.mk (c :: ds)⟩ :: scanTokens fuel other
    else if isAlphaCh c then
      let tail := rest.takeWhile isAlphaNumCh
      keywordToken (String.mk (c :: tail)) :: scanTokens fuel (rest.dropWhile isAlphaNumCh)
    else ⟨.unknown, String.mk [c]⟩ :: scanTokens fuel rest

/-- Tokenize a query string: scan all characters, then append EOF. -/
def tokenize (s : String) : List Token :=
  scanTokens (s.data.length + 1) s.data ++ [⟨.eof, ""⟩]

/-! ## Abstract syntax tree (src/types/types.ts) -/

/-- Comparison and logical operator kinds (OperatorType). -/
inductive CmpOp where
  | eq | ne | gt | lt | ge | le | containsCmp | notContainsCmp
  deriving DecidableEq, Repr

/-- Condition AST: binary AND/OR, unary NOT, field comparison. -/
inductive CondNode where
  | andC (left right : CondNode)
  | orC (left right : CondNode)
  | notC (cond : CondNode)
  | cmp (field : String) (op : CmpOp) (value : Value)
  deriving DecidableEq, Repr

/-- Field specification of a SELECT: the asterisk or a name list. -/
inductive Fields where
  | star
  | list (names : List String)
  deriving DecidableEq, Repr

/-- SELECT operation node. -/
structure SelectOp where
  fields : Fields
  conditions : Option CondNode := none
  each : Bool := false
  deriving DecidableEq, Repr

/-- Operation AST (OperationNode tagged union). -/
inductive OperationNode where
  | selectOp (op : SelectOp)
  | countOp (selectOperation : SelectOp)
  | sumOp
  | divideOp (dividend divisor : String)
  | multiplyOp (factor1 factor2 : String)
  | subtractOp (minuend subtrahend : String)
  | averageOp
  | medianOp
  | minOp
  | maxOp
  | percentOfOp (numerator denominator : SelectOp)
  | mostFrequentOp
  | leastFrequentOp
  | uniqueOp
  | standardDeviationOp
  | varianceOp
  | rangeOp
  | varAssign (name : String) (operation : OperationNode)
  deriving DecidableEq, Repr

/-- USE path node: dotted path text plus optional trailing field set. -/
structure UsePathNode where
  path : String
  fields : Option (List String) := none
  deriving DecidableEq, Repr

/-- QUERY block node. -/
structure QueryBlockNode where
  name : String
  operations : List OperationNode
  deriving DecidableEq, Repr

/-- Program node: USE declarations and query blocks, in source order. -/
structure ProgramNode where
  usePaths : List UsePathNode
  queryBlocks : List QueryBlockNode
  deriving DecidableEq, Repr

/-- Errors thrown by the parser and the executor. -/
inductive Err where
  | syntaxErr (message : String)
  | variableNotFound (name : String)
  | multiPropAggregate (message : String)
  | unknownOperator
  | fuelExhausted
  deriving DecidableEq, Repr

/-! ## Parser (src/parser/parser.ts)

Recursive descent over the token list; each function returns the parsed
node and the remaining tokens.  The looping functions (program, query
block, condition chain) carry a fuel parameter for termination; the top
entry point supplies more fuel than any input can consume, so the fuel
branch is unreachable on every actual token list. -/

/-- Parses a field list in the format field1, field2, ... stopping
before the closing bracket (Parser.parseFieldList's do-while). -/
def parseFieldListTail (acc : List String) : List Token → Except Err (List String × List Token)
  | ⟨.comma, _⟩ :: rest =>
      match rest with
      | ⟨.identifier, f⟩ :: rest2 => parseFieldListTail (acc ++ [f]) rest2
      | _ => .error (.syntaxErr "Expected field name")
  | ts => .ok (acc, ts)

/-- Parser.parseFieldList: empty when the next token closes the bracket,
else one or more comma separated identifiers. -/
def parseFieldList : List Token → Except Err (List String × List Token)
  | ⟨.rbracket, v⟩ :: rest => .ok ([], ⟨.rbracket, v⟩ :: rest)
  | ⟨.identifier, f⟩ :: rest => parseFieldListTail [f] rest
  | _ => .error (.syntaxErr "Expected field name")

/-- The dotted-segment loop of Parser.parseUsePath: consume .identifier
segments until a bracketed field list (which ends the path) or until no
dot follows.  Returns segments, the optional field set and the rest. -/
def parseUsePathLoop (acc : List String) :
    List Token → Except Err (List String × Option (List String) × List Token)
  | ⟨.dot, _⟩ :: ⟨.lbracket, _⟩ :: rest => do
      let (fs, rest2) ← parseFieldList rest
      match rest2 with
      | ⟨.rbracket, _⟩ :: rest3 => .ok (acc, some fs, rest3)
      | _ => .error (.syntaxErr "Expected closing bracket after fields")
  | ⟨.dot, _⟩ :: ⟨.identifier, v⟩ :: rest => parseUsePathLoop (acc ++ [v]) rest
  | ⟨.dot, _⟩ :: _ => .error (.syntaxErr "Expected identifier or fields in USE path")
  | ts => .ok (acc, none, ts)

/-- Parser.parseUsePath (after the USE keyword has been consumed). -/
def parseUsePath : List Token → Except Err (UsePathNode × List Token)
  | ⟨.identifier, v⟩ :: rest => do
      let (names, fs, rest2) ← parseUsePathLoop [v] rest
      .ok ({ path := String.intercalate "." names, fields := fs }, rest2)
  | _ => .error (.syntaxErr "Expected identifier in USE path")

/-- Parser.parseValue: literal or variable reference in a condition. -/
def parseCondValue : List Token → Except Err (Value × List Token)
  | ⟨.stringLit, v⟩ :: rest => .ok (.vstr v, rest)
  | ⟨.numberLit, v⟩ :: rest =>
      -- parseFloat on a digit token; such tokens always parse
      .ok (.vnum (strToNum v), rest)
  | ⟨.booleanLit, v⟩ :: rest => .ok (.vbool (v = "true"), rest)
  | ⟨.nullLit, _⟩ :: rest => .ok (.vnull, rest)
  | ⟨.variable, v⟩ :: rest => .ok (.vstr v, rest)
  | _ => .error (.syntaxErr "Expected value in condition")

/-- Comparison operator token of Parser.parsePrimary. -/
def parseCmpOp : List Token → Except Err (CmpOp × List Token)
  | ⟨.equals, _⟩ :: rest => .ok (.eq, rest)
  | ⟨.notEquals, _⟩ :: rest => .ok (.ne, rest)
  | ⟨.greaterThan, _⟩ :: rest => .ok (.gt, rest)
  | ⟨.lessThan, _⟩ :: rest => .ok (.lt, rest)
  | ⟨.greaterThanEquals, _⟩ :: rest => .ok (.ge, rest)
  | ⟨.lessThanEquals, _⟩ :: rest => .ok (.le, rest)
  | ⟨.containsOp, _⟩ :: rest => .ok (.containsCmp, rest)
  | ⟨.notContainsOp, _⟩ :: rest => .ok (.notContainsCmp, rest)
  | _ => .error (.syntaxErr "Expected operator in condition")

mutual

/-- Parser.parseCondition. -/
def parseCondition (fuel : ℕ) (ts : List Token) : Except Err (CondNode × List Token) :=
  match fuel with
  | 0 => .error .fuelExhausted
  | fuel + 1 => parseLogicalOr fuel ts

/-- Parser.parseLogicalOr: AND chains separated by pipes. -/
def parseLogicalOr (fuel : ℕ) (ts : List Token) : Except Err (CondNode × List Token) :=
  match fuel with
  | 0 => .error .fuelExhausted
  | fuel + 1 => do
      let (e, rest) ← parseLogicalAnd fuel ts
      parseOrTail fuel e rest

/-- The pipe loop of parseLogicalOr. -/
def parseOrTail (fuel : ℕ) (e : CondNode) (ts : List Token) :
    Except Err (CondNode × List Token) :=
  match fuel with
  | 0 => .error .fuelExhausted
  | fuel + 1 =>
      match ts with
      | ⟨.pipe, _⟩ :: rest => do
          let (r, rest2) ← parseLogicalAnd fuel rest
          parseOrTail fuel (.orC e r) rest2
      | _ => .ok (e, ts)

/-- Parser.parseLogicalAnd: unary conditions separated by ampersands. -/
def parseLogicalAnd (fuel : ℕ) (ts : List Token) : Except Err (CondNode × List Token) :=
  match fuel with
  | 0 => .error .fuelExhausted
  | fuel + 1 => do
      let (e, rest) ← parseUnaryCond fuel ts
      parseAndTail fuel e rest

/-- The ampersand loop of parseLogicalAnd. -/
def parseAndTail (fuel : ℕ) (e : CondNode) (ts : List Token) :
    Except Err (CondNode × List Token) :=
  match fuel with
  | 0 => .error .fuelExhausted
  | fuel + 1 =>
      match ts with
      | ⟨.ampersand, _⟩ :: rest => do
          let (r, rest2) ← parseUnaryCond fuel rest
          parseAndTail fuel (.andC e r) rest2
      | _ => .ok (e, ts)

/-- Parser.parseUnary: bang-prefixed negation or a primary. -/
def parseUnaryCond (fuel : ℕ) (ts : List Token) : Except Err (CondNode × List Token) :=
  match fuel with
  | 0 => .error .fuelExhausted
  | fuel + 1 =>
      match ts with
      | ⟨.notOp, _⟩ :: rest => do
          let (c, rest2) ← parseUnaryCond fuel rest
          .ok (.notC c, rest2)
      | _ => parsePrimaryCond fuel ts

/-- Parser.parsePrimary: parenthesized condition or field comparison. -/
def parsePrimaryCond (fuel : ℕ) (ts : List Token) : Except Err (CondNode × List Token) :=
  match fuel with
  | 0 => .error .fuelExhausted
  | fuel + 1 =>
      match ts with
      | ⟨.lparen, _⟩ :: rest => do
          let (e, rest2) ← parseCondition fuel rest
          match rest2 with
          | ⟨.rparen, _⟩ :: rest3 => .ok (e, rest3)
          | _ => .error (.syntaxErr "Expected closing paren after expression")
      | ⟨.identifier, fieldName⟩ :: rest => do
          let (op, rest2) ← parseCmpOp rest
          let (v, rest3) ← parseCondValue rest2
          .ok (.cmp fieldName op v, rest3)
      | _ => .error (.syntaxErr "Expected field name in condition")

end

/-- Parser.parseSelectOperation (SELECT keyword already consumed). -/
def parseSelectOperation (fuel : ℕ) (ts : List Token) :
    Except Err (SelectOp × List Token) := do
  -- optional EACH keyword
  let (each, ts) :=
    match ts with
    | ⟨.each, _⟩ :: rest => (true, rest)
    | _ => (false, ts)
  -- field spec: asterisk, bracketed list, identifier, or default to star
  let (fields, ts) ←
    match ts with
    | ⟨.asterisk, _⟩ :: rest => .ok ((Fields.star), rest)
    | ⟨.lbracket, _⟩ :: rest => do
        let (fs, rest2) ← parseFieldList rest
        match rest2 with
        | ⟨.rbracket, _⟩ :: rest3 => .ok (Fields.list fs, rest3)
        | _ => .error (.syntaxErr "Expected closing bracket after fields")
    | ⟨.identifier, v⟩ :: rest => .ok (Fields.list [v], rest)
    | rest => .ok (Fields.star, rest)
  -- optional WHERE clause
  match ts with
  | ⟨.whereKw, _⟩ :: rest =>
      match rest with
      | ⟨.lparen, _⟩ :: rest2 => do
          let (conds, rest3) ← parseCondition fuel rest2
          match rest3 with
          | ⟨.rparen, _⟩ :: rest4 =>
              .ok ({ fields := fields, conditions := some conds, each := each }, rest4)
          | _ => .error (.syntaxErr "Expected closing paren after WHERE conditions")
      | _ => .error (.syntaxErr "Expected opening paren after WHERE")
  | _ => .ok ({ fields := fields, conditions := none, each := each }, ts)

/-- Parser.parseCountOperation: COUNT SELECT is special-cased with a
star field spec; anything else parses as a plain select operation. -/
def parseCountOperation (fuel : ℕ) (ts : List Token) :
    Except Err (OperationNode × List Token) :=
  match ts with
  | ⟨.select, _⟩ :: rest =>
      match rest with
      | ⟨.whereKw, _⟩ :: rest2 =>
          match rest2 with
          | ⟨.lparen, _⟩ :: rest3 => do
              let (conds, rest4) ← parseCondition fuel rest3
              match rest4 with
              | ⟨.rparen, _⟩ :: rest5 =>
                  .ok (.countOp { fields := .star, conditions := some conds }, rest5)
              | _ => .error (.syntaxErr "Expected closing paren after WHERE conditions")
          | _ => .error (.syntaxErr "Expected opening paren after WHERE")
      | _ => .ok (.countOp { fields := .star }, rest)
  | _ => do
      let (sel, rest) ← parseSelectOperation fuel ts
      .ok (.countOp sel, rest)

/-- Lookahead of Parser.parsePercentOfOperation: does a comma followed
immediately by SELECT occur anywhere in the remaining tokens? -/
def commaSelectAhead : List Token → Bool
  | ⟨.comma, _⟩ :: ⟨.select, _⟩ :: _ => true
  | _ :: rest => commaSelectAhead rest
  | [] => false

/-- One PERCENT_OF operand: a bare SELECT keyword yields a star select
with an optional WHERE clause; otherwise a full select operation. -/
def parsePercentOperand (fuel : ℕ) (ts : List Token) :
    Except Err (SelectOp × List Token) :=
  match ts with
  | ⟨.select, _⟩ :: rest =>
      match rest with
      | ⟨.whereKw, _⟩ :: rest2 =>
          match rest2 with
          | ⟨.lparen, _⟩ :: rest3 => do
              let (conds, rest4) ← parseCondition fuel rest3
              match rest4 with
              | ⟨.rparen, _⟩ :: rest5 =>
                  .ok ({ fields := .star, conditions := some conds }, rest5)
              | _ => .error (.syntaxErr "Expected closing paren after WHERE conditions")
          | _ => .error (.syntaxErr "Expected opening paren after WHERE")
      | _ => .ok ({ fields := .star }, rest)
  | _ => parseSelectOperation fuel ts

/-- Parser.parsePercentOfOperation. -/
def parsePercentOfOperation (fuel : ℕ) (ts : List Token) :
    Except Err (OperationNode × List Token) := do
  let selectIsNext := commaSelectAhead ts
  let (numerator, ts1) ← parsePercentOperand fuel ts
  let ts2 :=
    if selectIsNext then
      match ts1 with
      | ⟨.comma, _⟩ :: rest => rest
      | _ => ts1
    else ts1
  let (denominator, ts3) ← parsePercentOperand fuel ts2
  .ok (.percentOfOp numerator denominator, ts3)

/-- Parser.parseVariableAssignment: the variable token, then exactly one
operation from the fixed dispatch list. -/
def parseVariableAssignment (fuel : ℕ) (ts : List Token) :
    Except Err (OperationNode × List Token) :=
  match ts with
  | ⟨.variable, name⟩ :: rest =>
      (show Except Err (OperationNode × List Token) from
       match rest with
       | ⟨.sum, _⟩ :: rest2 => .ok (OperationNode.sumOp, rest2)
       | ⟨.count, _⟩ :: rest2 => parseCountOperation fuel rest2
       | ⟨.mostFrequent, _⟩ :: rest2 => .ok (.mostFrequentOp, rest2)
       | ⟨.leastFrequent, _⟩ :: rest2 => .ok (.leastFrequentOp, rest2)
       | ⟨.average, _⟩ :: rest2 => .ok (.averageOp, rest2)
       | ⟨.median, _⟩ :: rest2 => .ok (.medianOp, rest2)
       | ⟨.minKw, _⟩ :: rest2 => .ok (.minOp, rest2)
       | ⟨.maxKw, _⟩ :: rest2 => .ok (.maxOp, rest2)
       | ⟨.unique, _⟩ :: rest2 => .ok (.uniqueOp, rest2)
       | ⟨.standardDeviation, _⟩ :: rest2 => .ok (.standardDeviationOp, rest2)
       | ⟨.variance, _⟩ :: rest2 => .ok (.varianceOp, rest2)
       | ⟨.range, _⟩ :: rest2 => .ok (.rangeOp, rest2)
       | ⟨.select, _⟩ :: rest2 => do
           let (sel, rest3) ← parseSelectOperation fuel rest2
           .ok (.selectOp sel, rest3)
       | _ => .error (.syntaxErr "Expected operation after variable assignment")
      ).map (fun (op, rest2) => (.varAssign name op, rest2))
  | _ => .error (.syntaxErr "Expected variable name")

/-- Two consecutive variable tokens, as DIVIDE/MULTIPLY/SUBTRACT demand. -/
def parseTwoVariables (what1 what2 : String) :
    List Token → Except Err ((String × String) × List Token)
  | ⟨.variable, a⟩ :: ⟨.variable, b⟩ :: rest => .ok ((a, b), rest)
  | ⟨.variable, _⟩ :: _ => .error (.syntaxErr what2)
  | _ => .error (.syntaxErr what1)

/-- The operation dispatch of Parser.parseQueryBlock's while loop. -/
def parseOperations (fuel : ℕ) (acc : List OperationNode) (ts : List Token) :
    Except Err (List OperationNode × List Token) :=
  match fuel with
  | 0 => .error .fuelExhausted
  | fuel + 1 =>
      match ts with
      | [] => .ok (acc, [])
      | ⟨.eof, v⟩ :: rest => .ok (acc, ⟨.eof, v⟩ :: rest)
      | ⟨.returnKw, v⟩ :: rest => .ok (acc, ⟨.returnKw, v⟩ :: rest)
      | ⟨.query, v⟩ :: rest => .ok (acc, ⟨.query, v⟩ :: rest)
      | ⟨.variable, v⟩ :: rest => do
          let (op, rest2) ← parseVariableAssignment fuel (⟨.variable, v⟩ :: rest)
          parseOperations fuel (acc ++ [op]) rest2
      | ⟨.select, _⟩ :: rest => do
          let (sel, rest2) ← parseSelectOperation fuel rest
          parseOperations fuel (acc ++ [.selectOp sel]) rest2
      | ⟨.count, _⟩ :: rest => do
          let (op, rest2) ← parseCountOperation fuel rest
          parseOperations fuel (acc ++ [op]) rest2
      | ⟨.percentOf, _⟩ :: rest => do
          let (op, rest2) ← parsePercentOfOperation fuel rest
          parseOperations fuel (acc ++ [op]) rest2
      | ⟨.sum, _⟩ :: rest => parseOperations fuel (acc ++ [.sumOp]) rest
      | ⟨.divide, _⟩ :: rest => do
          let ((a, b), rest2) ←
            parseTwoVariables "Expected variable as dividend" "Expected variable as divisor" rest
          parseOperations fuel (acc ++ [.divideOp a b]) rest2
      | ⟨.multiply, _⟩ :: rest => do
          let ((a, b), rest2) ←
            parseTwoVariables "Expected variable as first factor" "Expected variable as second factor" rest
          parseOperations fuel (acc ++ [.multiplyOp a b]) rest2
      | ⟨.subtract, _⟩ :: rest => do
          let ((a, b), rest2) ←
            parseTwoVariables "Expected variable as minuend" "Expected variable as subtrahend" rest
          parseOperations fuel (acc ++ [.subtractOp a b]) rest2
      | ⟨.average, _⟩ :: rest => parseOperations fuel (acc ++ [.averageOp]) rest
      | ⟨.median, _⟩ :: rest => parseOperations fuel (acc ++ [.medianOp]) rest
      | ⟨.minKw, _⟩ :: rest => parseOperations fuel (acc ++ [.minOp]) rest
      | ⟨.maxKw, _⟩ :: rest => parseOperations fuel (acc ++ [.maxOp]) rest
      | ⟨.mostFrequent, _⟩ :: rest => parseOperations fuel (acc ++ [.mostFrequentOp]) rest
      | ⟨.leastFrequent, _⟩ :: rest => parseOperations fuel (acc ++ [.leastFrequentOp]) rest
      | ⟨.unique, _⟩ :: rest => parseOperations fuel (acc ++ [.uniqueOp]) rest
      | ⟨.standardDeviation, _⟩ :: rest =>
          parseOperations fuel (acc ++ [.standardDeviationOp]) rest
      | ⟨.variance, _⟩ :: rest => parseOperations fuel (acc ++ [.varianceOp]) rest
      | ⟨.range, _⟩ :: rest => parseOperations fuel (acc ++ [.rangeOp]) rest
      | _ :: rest => parseOperations fuel acc rest  -- skip unknown tokens

/-- Parser.parseQueryBlock (QUERY keyword already consumed). -/
def parseQueryBlock (fuel : ℕ) (ts : List Token) :
    Except Err (QueryBlockNode × List Token) :=
  match ts with
  | ⟨.identifier, name⟩ :: rest => do
      let (ops, rest2) ← parseOperations fuel [] rest
      match rest2 with
      | ⟨.returnKw, _⟩ :: rest3 => .ok ({ name := name, operations := ops }, rest3)
      | _ => .error (.syntaxErr "Expected RETURN at end of query block")
  | _ => .error (.syntaxErr "Expected query name after QUERY")

/-- Parser.parse's top loop: USE declarations, query blocks, comments
and skipped unknowns until EOF. -/
def parseProgramLoop (fuel : ℕ) (prog : ProgramNode) (ts : List Token) :
    Except Err ProgramNode :=
  match fuel with
  | 0 => .error .fuelExhausted
  | fuel + 1 =>
      match ts with
      | [] => .ok prog
      | ⟨.eof, _⟩ :: _ => .ok prog
      | ⟨.comment, _⟩ :: rest => parseProgramLoop fuel prog rest
      | ⟨.use, _⟩ :: rest => do
          let (u, rest2) ← parseUsePath rest
          parseProgramLoop fuel { prog with usePaths := prog.usePaths ++ [u] } rest2
      | ⟨.query, _⟩ :: rest => do
          let (qb, rest2) ← parseQueryBlock fuel rest
          parseProgramLoop fuel
            { prog with queryBlocks := prog.queryBlocks ++ [qb] } rest2
      | _ :: rest => parseProgramLoop fuel prog rest

/-- Parser.parse on a token list, with ample fuel (see section comment). -/
def parseTokens (ts : List Token) : Except Err ProgramNode :=
  parseProgramLoop ((ts.length + 16) * 8) ⟨[], []⟩ ts

/-- The createQuery pipeline's parse step: tokenize then parse. -/
def parseQuery (s : String) : Except Err ProgramNode :=
  parseTokens (tokenize s)

/-- SSOQLQuery.expectedObjects: the stored path text of each USE
declaration, in source order. -/
def expectedObjects (prog : ProgramNode) : List String :=
  prog.usePaths.map (·.path)

/-- expectedObjects composed with the parse pipeline. -/
def expectedPathsOf (s : String) : Except Err (List String) :=
  (parseQuery s).map expectedObjects

/-- Decidable equality for Except results, used to evaluate concrete
runs of the engine inside proofs. -/
instance {ε α : Type} [DecidableEq ε] [DecidableEq α] : DecidableEq (Except ε α) := by
  intro a b
  cases a <;> cases b
  case error.error e1 e2 =>
    exact match decEq e1 e2 with
      | isTrue h => isTrue (by rw [h])
      | isFalse h => isFalse (by intro hc; cases hc; exact h rfl)
  case ok.ok v1 v2 =>
    exact match decEq v1 v2 with
      | isTrue h => isTrue (by rw [h])
      | isFalse h => isFalse (by intro hc; cases hc; exact h rfl)
  case error.ok e v => exact isFalse (by intro hc; cases hc)
  case ok.error v e => exact isFalse (by intro hc; cases hc)

/-! ## Executor (src/src/executor/executor.ts, first revision)

The executor's ExecutionContext carries the data tree, a variable map
and the current working set (currentContext).  Variable writes go to
both the context's map and the executor's global map, which start equal
at every block and receive identical writes; a single store models both
(see the file comment). -/

/-- Variable store: insertion-ordered map, as a JavaScript Map. -/
abbrev VarStore := List (String × Value)

/-- Map.get, as Option. -/
def vget (vars : VarStore) (name : String) : Option Value :=
  ((vars.find? (fun kv => kv.1 = name)).map (·.2))

/-- Map.set: update in place when the key exists, else append. -/
def vset (vars : VarStore) (name : String) (v : Value) : VarStore :=
  if (List.find? (fun kv => kv.1 = name) vars).isSome then
    vars.map (fun kv => if kv.1 = name then (kv.1, v) else kv)
  else vars ++ [(name, v)]

/-- Execution context (ExecutionContext). -/
structure ExecState where
  data : Value
  vars : VarStore
  workingSet : List Value

/-- Executor.getVariableValue: throws when the variable was never set. -/
def getVariableValue (name : String) (st : ExecState) : Except Err Value :=
  match vget st.vars name with
  | some v => .ok v
  | none => .error (.variableNotFound name)

/-- Loose equality against a boolean operand: the boolean coerces to
its number first. -/
def jsLooseEqBoolAux (x : Bool) (y : Value) : Bool :=
  match y with
  | .vbool z => x = z
  | .vnum n => n ≠ .nan && n = .fin (cond x 1 0)
  | .vstr t => strToNum t ≠ .nan && strToNum t = .fin (cond x 1 0)
  | _ => false

/-- JavaScript abstract equality (the == of evaluateComparison).  After
collapsing arrays/objects to their string form (ToPrimitive) and with
object reference identity not modelled, the remaining primitive cases
follow the loose-equality table. -/
def jsLooseEq (a b : Value) : Bool :=
  let pa := if a.isObjLike then Value.vstr (jsToString a) else a
  let pb := if b.isObjLike then Value.vstr (jsToString b) else b
  match pa, pb with
  | .vnull, .vnull => true
  | .vnull, .vundef => true
  | .vundef, .vnull => true
  | .vundef, .vundef => true
  | .vnull, _ => false
  | _, .vnull => false
  | .vundef, _ => false
  | _, .vundef => false
  | .vstr s, .vstr t => s = t
  | .vnum m, .vnum n => m ≠ .nan && n ≠ .nan && m = n
  | .vnum m, .vstr t => m ≠ .nan && strToNum t ≠ .nan && m = strToNum t
  | .vstr s, .vnum n => strToNum s ≠ .nan && n ≠ .nan && strToNum s = n
  | .vbool x, y => jsLooseEqBoolAux x y
  | x, .vbool y => jsLooseEqBoolAux y x
  | _, _ => false

/-- JavaScript relational comparison a < b: both operands to primitives
(arrays/objects via their string form), both-strings lexicographic,
otherwise numeric with NaN yielding false. -/
def jsRelLt (a b : Value) : Bool :=
  let pa := if a.isObjLike then Value.vstr (jsToString a) else a
  let pb := if b.isObjLike then Value.vstr (jsToString b) else b
  match pa, pb with
  | .vstr s, .vstr t => decide (s < t)
  | x, y => jlt (toNum x) (toNum y)

/-- Executor.evaluateComparison over one record. -/
def evaluateComparison (field : String) (op : CmpOp) (value : Value)
    (item : Value) (st : ExecState) : Except Err Bool := do
  let actualValue := jsGet item field
  let compareValue ←
    match value with
    | .vstr s => if s.startsWith "$" then getVariableValue s st else .ok value
    | _ => .ok value
  match op with
  | .eq => .ok (jsLooseEq actualValue compareValue)
  | .ne => .ok (!jsLooseEq actualValue compareValue)
  | .gt => .ok (compareValue ≠ .vnull && jsRelLt compareValue actualValue)
  | .lt => .ok (compareValue ≠ .vnull && jsRelLt actualValue compareValue)
  | .ge => .ok (compareValue ≠ .vnull && !jsRelLt actualValue compareValue)
  | .le => .ok (compareValue ≠ .vnull && !jsRelLt compareValue actualValue)
  | .containsCmp =>
      .ok (match actualValue with
           | .varr items => items.any (fun v => jsToString v = jsToString compareValue)
           | _ => false)
  | .notContainsCmp =>
      .ok (match actualValue with
           | .varr items => !items.any (fun v => jsToString v = jsToString compareValue)
           | _ => true)

/-- Executor.evaluateCondition: short-circuiting AND/OR, NOT, comparison. -/
def evaluateCondition (cond : CondNode) (item : Value) (st : ExecState) :
    Except Err Bool :=
  match cond with
  | .andC l r => do
      let a ← evaluateCondition l item st
      if a then evaluateCondition r item st else .ok false
  | .orC l r => do
      let a ← evaluateCondition l item st
      if a then .ok true else evaluateCondition r item st
  | .notC c => do
      let a ← evaluateCondition c item st
      .ok (!a)
  | .cmp field op value => evaluateComparison field op value item st

/-- Array.prototype.filter with a predicate that may throw. -/
def filterME (p : Value → Except Err Bool) : List Value → Except Err (List Value)
  | [] => .ok []
  | x :: xs => do
      let b ← p x
      let r ← filterME p xs
      .ok (if b then x :: r else r)

/-- Single-field projection of executeSelect: primitive values pass,
arrays/objects are JSON stringified, anything else is String()-ed. -/
def projectSingle (field : String) (item : Value) : Value :=
  match jsGet item field with
  | .vnull => .vnull
  | .vstr s => .vstr s
  | .vnum n => .vnum n
  | .vbool b => .vbool b
  | .varr items => .vstr (stringify (.varr items))
  | .vobj fs => .vstr (stringify (.vobj fs))
  | .vundef => .vstr (jsToString .vundef)

/-- Multi-field projection of executeSelect: build the projection object
field by field (with the same per-value coercion), then JSON stringify
the whole projection. -/
def projectMulti (fieldNames : List String) (item : Value) : Value :=
  let projection := fieldNames.map (fun f =>
    (f, match jsGet item f with
        | .vnull => Value.vnull
        | .vstr s => .vstr s
        | .vnum n => .vnum n
        | .vbool b => .vbool b
        | .varr items => .vstr (stringify (.varr items))
        | .vobj fs => .vstr (stringify (.vobj fs))
        | .vundef => .vstr (jsToString .vundef)))
  .vstr (stringify (.vobj projection))

/-- Star projection of executeSelect: JSON.stringify each row (an
undefined row would stay undefined). -/
def projectStar (item : Value) : Value :=
  match item with
  | .vundef => .vundef
  | v => .vstr (stringify v)

/-- Executor.executeSelect, first revision.  The function is an
acknowledged stub (its body carries a long TODO comment): it starts from
an empty row list, clears the working set, filters and projects that
empty list, stores it as the new working set and returns it.  It never
reads the data tree or the previous working set. -/
def executeSelect (op : SelectOp) (st : ExecState) :
    Except Err (List Value × ExecState) := do
  let result : List Value := []
  -- context.currentContext = [] (overwritten again below)
  let result ←
    match op.conditions with
    | some c => filterME (fun item => evaluateCondition c item st) result
    | none => pure result
  let result :=
    match op.fields with
    | .list [f] => result.map (projectSingle f)
    | .list fs => result.map (projectMulti fs)
    | .star => result.map projectStar
  .ok (result, { st with workingSet := result })

/-- Executor.executeCount: run the inner SELECT against a copy of the
context, restore the original working set, return the result length. -/
def executeCount (sel : SelectOp) (st : ExecState) :
    Except Err (Value × ExecState) := do
  let originalContext := st.workingSet
  let (selectResult, _) ← executeSelect sel { st with workingSet := originalContext }
  .ok (.vnum (.fin selectResult.length), { st with workingSet := originalContext })

/-- NaN test used by the aggregate coercions. -/
def denan (n : JNum) : Option JNum :=
  if n = .nan then none else some n

/-- Shared shape of the aggregate extractors: decide the scalar path by
the first element; on the object path use the sole key of the first
element, throwing when it has several keys. -/
def extractNums (opName : String) (ws : List Value) : Except Err (List JNum) :=
  match ws with
  | [] => .ok []
  | first :: _ =>
      if !first.isObjLike then
        .ok (ws.filterMap (fun v => denan (toNum v)))
      else
        match jsKeys first with
        | [k] => .ok (ws.filterMap (fun item => denan (toNum (jsGet item k))))
        | _ => .error (.multiPropAggregate opName)

/-- Executor.executeSum: zero on empty, scalar path coerces NaN to 0 in
the running sum, single-key path sums that key's coerced values. -/
def executeSum (ws : List Value) : Except Err JNum :=
  match ws with
  | [] => .ok (.fin 0)
  | first :: _ =>
      if !first.isObjLike then
        .ok (ws.foldl (fun s v =>
          jadd s (match denan (toNum v) with | some n => n | none => .fin 0)) (.fin 0))
      else
        match jsKeys first with
        | [k] =>
            .ok (ws.foldl (fun s item =>
              jadd s (match denan (toNum (jsGet item k)) with
                      | some n => n | none => .fin 0)) (.fin 0))
        | _ => .error (.multiPropAggregate "Cannot sum objects with multiple properties")

/-- Executor.executeAverage: zero on empty, else sum divided by the
working-set length (not the numeric-value count). -/
def executeAverage (ws : List Value) : Except Err JNum :=
  match ws with
  | [] => .ok (.fin 0)
  | _ => do
      let s ← executeSum ws
      .ok (jdiv s (.fin ws.length))

/-- Stable insertion into an ascending run (models the comparator
(a, b) => a - b of Array.prototype.sort; the sort algorithm itself is
unspecified in JS, any stable sort is a faithful model). -/
def insertJ (x : JNum) : List JNum → List JNum
  | [] => [x]
  | y :: ys => if jlt x y then x :: y :: ys else y :: insertJ x ys

/-- Stable ascending sort of the numeric values. -/
def sortJ (l : List JNum) : List JNum := l.foldr insertJ []

/-- Executor.executeMedian. -/
def executeMedian (ws : List Value) : Except Err JNum :=
  match ws with
  | [] => .ok (.fin 0)
  | _ => do
      let values ← extractNums "Cannot calculate median of objects with multiple properties" ws
      if values.isEmpty then .ok (.fin 0)
      else
        let s := sortJ values
        let mid := s.length / 2
        if s.length % 2 = 0 then
          .ok (jdiv (jadd (s.getD (mid - 1) (.fin 0)) (s.getD mid (.fin 0))) (.fin 2))
        else .ok (s.getD mid (.fin 0))

/-- Executor.executeMin: Math.min over the numeric values, zero when
none remain. -/
def executeMin (ws : List Value) : Except Err JNum :=
  match ws with
  | [] => .ok (.fin 0)
  | _ => do
      let values ← extractNums "Cannot find minimum of objects with multiple properties" ws
      match values with
      | [] => .ok (.fin 0)
      | v :: rest => .ok (rest.foldl (fun m x => if jlt x m then x else m) v)

/-- Executor.executeMax: Math.max over the numeric values, zero when
none remain. -/
def executeMax (ws : List Value) : Except Err JNum :=
  match ws with
  | [] => .ok (.fin 0)
  | _ => do
      let values ← extractNums "Cannot find maximum of objects with multiple properties" ws
      match values with
      | [] => .ok (.fin 0)
      | v :: rest => .ok (rest.foldl (fun m x => if jlt m x then x else m) v)

/-- Executor.executeVariance: sample variance with the n − 1 divisor,
zero when the working set or the numeric values number at most one. -/
def executeVariance (ws : List Value) : Except Err JNum :=
  if ws.length ≤ 1 then .ok (.fin 0)
  else do
    let values ← extractNums "Cannot calculate variance of objects with multiple properties" ws
    if values.length ≤ 1 then .ok (.fin 0)
    else
      let mean := jdiv (values.foldl jadd (.fin 0)) (.fin values.length)
      let numer := values.foldl
        (fun s v => jadd s (jmul (jsub v mean) (jsub v mean))) (.fin 0)
      .ok (jdiv numer (.fin ((values.length : ℚ) - 1)))

/-- Executor.executeStandardDeviation: square root of the variance. -/
def executeStandardDeviation (ws : List Value) : Except Err JNum := do
  let v ← executeVariance ws
  .ok (jsqrt v)

/-- Executor.executeRange: max minus min. -/
def executeRange (ws : List Value) : Except Err JNum := do
  let mn ← executeMin ws
  let mx ← executeMax ws
  .ok (jsub mx mn)

/-- Executor.executeUnique: values (scalar path keeps rows as they are,
object path takes the sole key of the first element), drop null and
undefined, then first-seen deduplication (Set insertion order; Set
identity on records is reference based in JS, modelled structurally —
no claim depends on duplicate records). -/
def executeUnique (ws : List Value) : Except Err (List Value) :=
  match ws with
  | [] => .ok []
  | first :: _ => do
      let values ←
        if !first.isObjLike then pure ws
        else
          match jsKeys first with
          | [k] => pure (ws.map (fun item => jsGet item k))
          | _ => .error (.multiPropAggregate
              "Cannot find unique values of objects with multiple properties")
      let kept := values.filter (fun v => !v.isNull && !v.isUndef)
      .ok (kept.foldl (fun acc v => if acc.contains v then acc else acc ++ [v]) [])

/-- Per-item value extraction of the frequency operators: a scalar is
itself, a single-key object is its sole value, several keys throw. -/
def mfExtract (opName : String) (item : Value) : Except Err Value :=
  if !item.isObjLike then .ok item
  else
    match jsKeys item with
    | [k] => .ok (jsGet item k)
    | _ => .error (.multiPropAggregate opName)

/-- One frequency-map update: increment an existing key (String(value)
keyed, insertion order kept) or append a fresh entry with the value. -/
def addFreq (acc : List (String × ℕ × Value)) (v : Value) : List (String × ℕ × Value) :=
  let key := jsToString v
  if (acc.find? (fun e => e.1 = key)).isSome then
    acc.map (fun e => if e.1 = key then (e.1, e.2.1 + 1, e.2.2) else e)
  else acc ++ [(key, 1, v)]

/-- The frequency-counting loop shared by MOST_FREQUENT and
LEAST_FREQUENT: extract each item's value, skip null and undefined,
count by the value's string form. -/
def buildFreq (opName : String) : List Value → List (String × ℕ × Value) →
    Except Err (List (String × ℕ × Value))
  | [], acc => .ok acc
  | item :: rest, acc => do
      let v ← mfExtract opName item
      if v.isNull || v.isUndef then buildFreq opName rest acc
      else buildFreq opName rest (addFreq acc v)

/-- The strict-improvement scan of executeMostFrequent: a new entry
replaces the running best exactly when its count is strictly greater. -/
def pickMostFrom (best : ℕ × Value) : List (String × ℕ × Value) → ℕ × Value
  | [] => best
  | e :: es => pickMostFrom (if e.2.1 > best.1 then (e.2.1, e.2.2) else best) es

/-- executeMostFrequent's scan (maxCount starts at zero, the running
value at null). -/
def pickMost (entries : List (String × ℕ × Value)) : Value :=
  (pickMostFrom ((0 : ℕ), Value.vnull) entries).2

/-- The strict-improvement scan of executeLeastFrequent: minCount starts
at Infinity (modelled by the empty option), a new entry replaces the
running best exactly when its count is strictly smaller. -/
def pickLeastFrom (best : Option (ℕ × Value)) :
    List (String × ℕ × Value) → Option (ℕ × Value)
  | [] => best
  | e :: es =>
      pickLeastFrom
        (match best with
         | none => some (e.2.1, e.2.2)
         | some b => if e.2.1 < b.1 then some (e.2.1, e.2.2) else best) es

/-- executeLeastFrequent's scan. -/
def pickLeast (entries : List (String × ℕ × Value)) : Value :=
  ((pickLeastFrom none entries).map (·.2)).getD .vnull

/-- Executor.executeMostFrequent. -/
def executeMostFrequent (ws : List Value) : Except Err Value :=
  match ws with
  | [] => .ok .vnull
  | _ => do
      let freqs ← buildFreq
        "Cannot find most frequent value of objects with multiple properties" ws []
      if freqs.isEmpty then .ok .vnull
      else .ok (pickMost freqs)

/-- Executor.executeLeastFrequent. -/
def executeLeastFrequent (ws : List Value) : Except Err Value :=
  match ws with
  | [] => .ok .vnull
  | _ => do
      let freqs ← buildFreq
        "Cannot find least frequent value of objects with multiple properties" ws []
      if freqs.isEmpty then .ok .vnull
      else .ok (pickLeast freqs)

/-- Executor.executeDivide: both operands are variable reads; a divisor
strictly equal to the number 0 short-circuits to 0; otherwise JS
division of the coerced values. -/
def executeDivide (dividend divisor : String) (st : ExecState) : Except Err JNum := do
  let dv ← getVariableValue dividend st
  let ds ← getVariableValue divisor st
  if ds = .vnum (.fin 0) then .ok (.fin 0)
  else .ok (jdiv (toNum dv) (toNum ds))

/-- Executor.executeMultiply. -/
def executeMultiply (factor1 factor2 : String) (st : ExecState) : Except Err JNum := do
  let f1 ← getVariableValue factor1 st
  let f2 ← getVariableValue factor2 st
  .ok (jmul (toNum f1) (toNum f2))

/-- Executor.executeSubtract. -/
def executeSubtract (minuend subtrahend : String) (st : ExecState) : Except Err JNum := do
  let m ← getVariableValue minuend st
  let s ← getVariableValue subtrahend st
  .ok (jsub (toNum m) (toNum s))

/-- Executor.executePercentOf: numerator and denominator SELECTs run
against copies of the context; an empty denominator yields 0; the whole
body sits in a try/catch whose handler logs and returns 0. -/
def executePercentOf (numerator denominator : SelectOp) (st : ExecState) :
    Except Err (Value × ExecState) :=
  let body : Except Err (Value × ExecState) := do
    let originalContext := st.workingSet
    let (numeratorResult, _) ← executeSelect numerator { st with workingSet := originalContext }
    let (denominatorResult, _) ← executeSelect denominator { st with workingSet := originalContext }
    if denominatorResult.length = 0 then .ok (.vnum (.fin 0), st)
    else
      .ok (.vnum (jmul (jdiv (.fin numeratorResult.length) (.fin denominatorResult.length))
            (.fin 100)),
          { st with workingSet := originalContext })
  match body with
  | .ok r => .ok r
  | .error _ => .ok (.vnum (.fin 0), st)  -- catch: console.error, return 0

/-- Executor.executeOperation: dispatch on the node tag; a variable
assignment runs its wrapped operation, stores the result under the name
(context map and global map receive the same write) and yields it. -/
def executeOperation : OperationNode → ExecState → Except Err (Value × ExecState)
  | .selectOp op, st => do
      let (l, st2) ← executeSelect op st
      .ok (.varr l, st2)
  | .countOp sel, st => executeCount sel st
  | .sumOp, st => do
      let n ← executeSum st.workingSet
      .ok (.vnum n, st)
  | .divideOp a b, st => do
      let n ← executeDivide a b st
      .ok (.vnum n, st)
  | .multiplyOp a b, st => do
      let n ← executeMultiply a b st
      .ok (.vnum n, st)
  | .subtractOp a b, st => do
      let n ← executeSubtract a b st
      .ok (.vnum n, st)
  | .averageOp, st => do
      let n ← executeAverage st.workingSet
      .ok (.vnum n, st)
  | .medianOp, st => do
      let n ← executeMedian st.workingSet
      .ok (.vnum n, st)
  | .minOp, st => do
      let n ← executeMin st.workingSet
      .ok (.vnum n, st)
  | .maxOp, st => do
      let n ← executeMax st.workingSet
      .ok (.vnum n, st)
  | .percentOfOp numerator denominator, st => executePercentOf numerator denominator st
  | .mostFrequentOp, st => do
      let v ← executeMostFrequent st.workingSet
      .ok (v, st)
  | .leastFrequentOp, st => do
      let v ← executeLeastFrequent st.workingSet
      .ok (v, st)
  | .uniqueOp, st => do
      let l ← executeUnique st.workingSet
      .ok (.varr l, st)
  | .standardDeviationOp, st => do
      let n ← executeStandardDeviation st.workingSet
      .ok (.vnum n, st)
  | .varianceOp, st => do
      let n ← executeVariance st.workingSet
      .ok (.vnum n, st)
  | .rangeOp, st => do
      let n ← executeRange st.workingSet
      .ok (.vnum n, st)
  | .varAssign name op, st => do
      let (result, st2) ← executeOperation op st
      .ok (result, { st2 with vars := vset st2.vars name result })

/-- Path walk of Executor.resolveDataFromUsePaths: follow the split
path, stopping (break, keeping the partial location) at the first
falsy child. -/
def walkPath : Value → List String → Value
  | cur, [] => cur
  | cur, part :: parts =>
      if jsFalsy (jsGet cur part) then cur
      else walkPath (jsGet cur part) parts

/-- Field projection of resolveDataFromUsePaths: keep the requested
fields that are present (undefined ones are skipped). -/
def projectUseFields (fieldNames : List String) (item : Value) : Value :=
  .vobj (fieldNames.filterMap (fun f =>
    match jsGet item f with
    | .vundef => none
    | v => some (f, v)))

/-- The contribution of one USE path: walk the dotted path from the
root; an array location contributes its items (projected when a field
set is given), an object location contributes itself (projected),
anything else contributes nothing. -/
def resolveOne (data : Value) (u : UsePathNode) : List Value :=
  let currentData := walkPath data (u.path.splitOn ".")
  match currentData with
  | .varr items =>
      match u.fields with
      | some fs => items.map (projectUseFields fs)
      | none => items
  | .vobj fs0 =>
      match u.fields with
      | some fs => [projectUseFields fs (.vobj fs0)]
      | none => [.vobj fs0]
  | _ => []

/-- Executor.resolveDataFromUsePaths: concatenate every USE path's
contribution (empty when there are no USE paths). -/
def resolveDataFromUsePaths (usePaths : List UsePathNode) (data : Value) : List Value :=
  if usePaths.isEmpty then []
  else usePaths.flatMap (resolveOne data)

/-- Executor.executeQueryBlock's operation loop: thread the context
through the operations, keeping the last result (null when there are
no operations). -/
def runOperations : List OperationNode → Value → ExecState →
    Except Err (Value × ExecState)
  | [], result, st => .ok (result, st)
  | op :: rest, _, st => do
      let (r, st2) ← executeOperation op st
      runOperations rest r st2

/-- One query block: fresh context from the USE paths (variables cloned
from the global store), run the operations, return the final result and
the variable store. -/
def execBlock (data : Value) (usePaths : List UsePathNode) (b : QueryBlockNode)
    (vars : VarStore) : Except Err (Value × VarStore) :=
  (runOperations b.operations .vnull
      ⟨data, vars, resolveDataFromUsePaths usePaths data⟩).map
    (fun p => (p.1, p.2.vars))

/-- Record assignment results[name] = v: overwrite in place, else append
(JavaScript object key order). -/
def setAssoc (acc : List (String × Value)) (name : String) (v : Value) :
    List (String × Value) :=
  if (acc.find? (fun kv => kv.1 = name)).isSome then
    acc.map (fun kv => if kv.1 = name then (kv.1, v) else kv)
  else acc ++ [(name, v)]

/-- Executor.execute's block loop, threading the global variable store
and the results record. -/
def runBlocksFrom (data : Value) (usePaths : List UsePathNode) :
    List QueryBlockNode → VarStore → List (String × Value) →
    Except Err (VarStore × List (String × Value))
  | [], vars, acc => .ok (vars, acc)
  | b :: rest, vars, acc => do
      let (v, vars2) ← execBlock data usePaths b vars
      runBlocksFrom data usePaths rest vars2 (setAssoc acc b.name v)

/-- Executor.execute: run every query block in order; the result is the
name-to-value record. -/
def executeProgram (prog : ProgramNode) (data : Value) :
    Except Err (List (String × Value)) :=
  (runBlocksFrom data prog.usePaths prog.queryBlocks [] []).map (·.2)

/-- The sanitization step of SSOQL.createQuery().execute: primitives
pass through, arrays and objects become their JSON string (JSON.stringify
of the undefined value is undefined, which this step would keep;
execution results are never undefined — see the lemma below). -/
def sanitizeValue : Value → Value
  | .varr items => .vstr (stringify (.varr items))
  | .vobj fs => .vstr (stringify (.vobj fs))
  | .vundef => .vundef
  | v => v

/-- createQuery().execute on an already parsed program: execute, then
sanitize every entry of the result record. -/
def executeSanitized (prog : ProgramNode) (data : Value) :
    Except Err (List (String × Value)) :=
  (executeProgram prog data).map (List.map (fun kv => (kv.1, sanitizeValue kv.2)))

/-- The full pipeline on a query string: tokenize, parse, execute,
sanitize. -/
def runQuery (s : String) (data : Value) : Except Err (List (String × Value)) := do
  let prog ← parseQuery s
  executeSanitized prog data

/-! ## Basic executor lemmas -/

/-- Bind on an ok Except value reduces to the continuation. -/
@[simp] theorem except_bind_ok {ε α β : Type} (a : α) (f : α → Except ε β) :
    (Except.ok a : Except ε α) >>= f = f a := rfl

/-- Bind on an error Except value keeps the error. -/
@[simp] theorem except_bind_error {ε α β : Type} (e : ε) (f : α → Except ε β) :
    (Except.error e : Except ε α) >>= f = .error e := rfl

/-- Map on an ok Except value applies the function. -/
@[simp] theorem except_map_ok {ε α β : Type} (a : α) (f : α → β) :
    (Except.ok a : Except ε α).map f = .ok (f a) := rfl

/-- Map on an error Except value keeps the error. -/
@[simp] theorem except_map_error {ε α β : Type} (e : ε) (f : α → β) :
    (Except.error e : Except ε α).map f = .error e := rfl

/-- The first-revision executeSelect never throws and always yields the
empty row list (it filters and projects a list that starts empty),
leaving the working set empty. -/
theorem executeSelect_eq (op : SelectOp) (st : ExecState) :
    executeSelect op st = .ok ([], { st with workingSet := [] }) := by
  unfold executeSelect
  cases hc : op.conditions with
  | none =>
      cases hf : op.fields with
      | star => rfl
      | list names =>
          cases names with
          | nil => rfl
          | cons f rest =>
              cases rest with
              | nil => rfl
              | cons g more => rfl
  | some c =>
      cases hf : op.fields with
      | star => rfl
      | list names =>
          cases names with
          | nil => rfl
          | cons f rest =>
              cases rest with
              | nil => rfl
              | cons g more => rfl

/-- Consequently COUNT always returns zero and leaves the state alone. -/
theorem executeCount_eq (sel : SelectOp) (st : ExecState) :
    executeCount sel st = .ok (.vnum (.fin 0), st) := by
  simp only [executeCount, executeSelect_eq, except_bind_ok]
  rfl

/-! ## Claim theorems -/

/-- C8: for every COUNT operation and every execution state, executing
COUNT returns exactly the length of the list produced by its inner
SELECT run on a copy of the current working set, and the state after
COUNT carries the caller's working set unchanged (the copy shares the
data tree, the variable map and the rows of the current working set,
which in this immutable embedding is the state itself). -/
theorem count_counts_inner_select_and_preserves_working_set
    (sel : SelectOp) (st : ExecState) :
    executeCount sel st =
      (executeSelect sel st).map
        (fun p => (Value.vnum (.fin p.1.length), st)) ∧
    ∀ v st2, executeCount sel st = .ok (v, st2) → st2.workingSet = st.workingSet := by
  constructor
  · rw [executeCount_eq, executeSelect_eq]
    rfl
  · intro v st2 h2
    rw [executeCount_eq] at h2
    cases h2
    rfl

/-- C6: over an empty working set, SUM, COUNT, AVERAGE, MEDIAN, MIN,
MAX, VARIANCE and RANGE each return 0, UNIQUE returns an empty list,
and MOST_FREQUENT and LEAST_FREQUENT each return null; none of them
throws (every result is ok). -/
theorem empty_working_set_aggregate_boundary
    (sel : SelectOp) (data : Value) (vars : VarStore) :
    executeSum [] = .ok (.fin 0) ∧
    executeCount sel ⟨data, vars, []⟩ = .ok (.vnum (.fin 0), ⟨data, vars, []⟩) ∧
    executeAverage [] = .ok (.fin 0) ∧
    executeMedian [] = .ok (.fin 0) ∧
    executeMin [] = .ok (.fin 0) ∧
    executeMax [] = .ok (.fin 0) ∧
    executeVariance [] = .ok (.fin 0) ∧
    executeRange [] = .ok (.fin 0) ∧
    executeUnique [] = .ok [] ∧
    executeMostFrequent [] = .ok .vnull ∧
    executeLeastFrequent [] = .ok .vnull := by
  refine ⟨rfl, executeCount_eq sel ⟨data, vars, []⟩, rfl, rfl, rfl, rfl, by decide, ?_, rfl, rfl, rfl⟩
  simp only [executeRange, executeMin, executeMax, except_bind_ok]
  norm_num [jsub, jneg, jadd]

/-- C9: whenever both variables of a DIVIDE operation are present in
the variable store and the divisor's value is the number 0, DIVIDE
returns 0 without throwing. -/
theorem divide_by_zero_variable_returns_zero
    (dividend divisor : String) (st : ExecState) (v : Value)
    (h1 : vget st.vars dividend = some v)
    (h2 : vget st.vars divisor = some (.vnum (.fin 0))) :
    executeDivide dividend divisor st = .ok (.fin 0) := by
  unfold executeDivide getVariableValue
  rw [h1, h2]
  rfl

/-- Witness for C9 at a concrete store binding the dividend to 10 and
the divisor to the number 0. -/
theorem divide_by_zero_variable_returns_zero_witness :
    executeDivide "$a" "$b"
      ⟨.vnull, [("$a", .vnum (.fin 10)), ("$b", .vnum (.fin 0))], []⟩ = .ok (.fin 0) :=
  divide_by_zero_variable_returns_zero "$a" "$b"
    ⟨.vnull, [("$a", .vnum (.fin 10)), ("$b", .vnum (.fin 0))], []⟩
    (.vnum (.fin 10)) (by decide) (by decide)

/-- Scenario D data: y.w1.plays holds 2 records, y.w2.plays holds 3. -/
def scenarioDData : Value :=
  .vobj [("y", .vobj [
    ("w1", .vobj [("plays", .varr [.vobj [("n", .vnum (.fin 1))],
                                   .vobj [("n", .vnum (.fin 2))]])]),
    ("w2", .vobj [("plays", .varr [.vobj [("n", .vnum (.fin 1))],
                                   .vobj [("n", .vnum (.fin 2))],
                                   .vobj [("n", .vnum (.fin 3))]])])])]

/-- C1: executing Scenario D (two-alternative USE y.[w1,w2].plays with
2 records under w1 and 3 under w2, query COUNT SELECT * RETURN) returns
the flat scalar 0, not the nested map w1 ↦ 2, w2 ↦ 3 the claim
describes: the parser reads the bracketed segment as the declaration's
field set (path y), the resolver performs no axis expansion, and the
stub SELECT gives COUNT nothing to count. -/
theorem scenarioD_two_axis_count_executes_to_flat_zero :
    runQuery "USE y.[w1, w2].plays\nQUERY numPlays\nCOUNT SELECT *\nRETURN"
      scenarioDData = .ok [("numPlays", .vnum (.fin 0))] := by
  decide

/-- Round-trip data for C3: a products array with two records. -/
def roundTripData : Value :=
  .vobj [("products", .varr [.vobj [("a", .vnum (.fin 1))],
                             .vobj [("b", .vnum (.fin 2))]])]

/-- C3: a zero-axis program whose query contains only SELECT * returns
the empty serialized list "[]" rather than the two bound records: the
first-revision executeSelect never reads the resolved rows (at the
executor level the query's value is the empty array, which the
createQuery wrapper serializes). -/
theorem select_star_roundtrip_returns_empty :
    runQuery "USE products\nQUERY q\nSELECT *\nRETURN" roundTripData =
      .ok [("q", .vstr "[]")] ∧
    executeProgram ⟨[⟨"products", none⟩], [⟨"q", [.selectOp ⟨.star, none, false⟩]⟩]⟩
      roundTripData = .ok [("q", .varr [])] := by
  constructor <;> decide

/-- Unfolding step of the block loop on a nonempty block list. -/
theorem runBlocksFrom_cons (data : Value) (us : List UsePathNode)
    (b : QueryBlockNode) (rest : List QueryBlockNode)
    (vars : VarStore) (acc : List (String × Value)) :
    runBlocksFrom data us (b :: rest) vars acc =
      execBlock data us b vars >>= (fun p =>
        runBlocksFrom data us rest p.2 (setAssoc acc b.name p.1)) := rfl

/-- Running the block loop over a concatenation first runs the prefix:
when the prefix succeeds, the loop continues from its store and record. -/
theorem runBlocksFrom_append (data : Value) (us : List UsePathNode)
    (pre rest : List QueryBlockNode) :
    ∀ vars acc vars1 acc1,
      runBlocksFrom data us pre vars acc = .ok (vars1, acc1) →
      runBlocksFrom data us (pre ++ rest) vars acc =
        runBlocksFrom data us rest vars1 acc1 := by
  induction pre with
  | nil =>
      intro vars acc vars1 acc1 h
      unfold runBlocksFrom at h
      cases h
      rfl
  | cons b pre ih =>
      intro vars acc vars1 acc1 h
      rw [runBlocksFrom_cons] at h
      rw [List.cons_append, runBlocksFrom_cons]
      cases hb : execBlock data us b vars with
      | error e => rw [hb] at h; simp at h
      | ok p =>
          rw [hb] at h
          simp only [except_bind_ok] at h
          simp only [except_bind_ok]
          exact ih p.2 (setAssoc acc b.name p.1) vars1 acc1 h

/-- C2: whenever a query block's execution throws (in particular an
unresolved-variable read in DIVIDE/MULTIPLY/SUBTRACT or an ambiguous
aggregate over multi-field projections), the whole execute() call — and
the sanitizing createQuery wrapper around it — aborts with that very
error and returns no result map.  Nothing in the executor catches these
errors: the only try/catch sits in PERCENT_OF, whose operands are
SELECTs, and the first-revision SELECT never throws (executeSelect_eq),
so no such error can arise inside a PERCENT_OF operand at all. -/
theorem block_error_aborts_execute
    (us : List UsePathNode) (data : Value)
    (pre post : List QueryBlockNode) (b : QueryBlockNode)
    (vars1 : VarStore) (acc1 : List (String × Value)) (e : Err)
    (h1 : runBlocksFrom data us pre [] [] = .ok (vars1, acc1))
    (h2 : execBlock data us b vars1 = .error e) :
    executeProgram ⟨us, pre ++ b :: post⟩ data = .error e ∧
    executeSanitized ⟨us, pre ++ b :: post⟩ data = .error e := by
  have hrun : runBlocksFrom data us (pre ++ b :: post) [] [] = .error e := by
    rw [runBlocksFrom_append data us pre (b :: post) [] [] vars1 acc1 h1]
    unfold runBlocksFrom
    rw [h2]
    rfl
  constructor
  · unfold executeProgram
    rw [hrun]
    rfl
  · unfold executeSanitized executeProgram
    rw [hrun]
    rfl

/-- Witness for C2: a program whose only block divides two never
assigned variables; execution aborts with the unresolved-variable
error for the dividend and yields no result map. -/
theorem block_error_aborts_execute_witness :
    executeProgram ⟨[], [⟨"q", [.divideOp "$a" "$b"]⟩]⟩ .vnull =
      .error (.variableNotFound "$a") ∧
    executeSanitized ⟨[], [⟨"q", [.divideOp "$a" "$b"]⟩]⟩ .vnull =
      .error (.variableNotFound "$a") :=
  block_error_aborts_execute [] .vnull [] [] ⟨"q", [.divideOp "$a" "$b"]⟩
    [] [] (.variableNotFound "$a") (by decide) (by decide)

/-- C4 counterexample: for the parseable query USE y2024.[w1, w2].O.plays
followed by a query block, expectedObjects returns the single string
y2024 — the bracketed alternatives are not rendered, and the dotted text
after them is dropped — refuting the claim that the full pre-expansion
path text with verbatim brackets is returned. -/
theorem expected_paths_bracket_not_verbatim :
    expectedPathsOf "USE y2024.[w1, w2].O.plays\nQUERY q\nCOUNT SELECT *\nRETURN" =
      .ok ["y2024"] ∧
    ("y2024" : String) ≠ "y2024.[w1, w2].O.plays" := by
  constructor <;> decide

/-! ## C4 amended: the USE path text stored by the parser -/

/-- Token run for dotted identifier segments: .seg1.seg2... -/
def dotIdentToks : List String → List Token
  | [] => []
  | n :: ns => ⟨.dot, "."⟩ :: ⟨.identifier, n⟩ :: dotIdentToks ns

/-- Token run for the comma separated tail of a field list. -/
def fieldSepToks : List String → List Token
  | [] => []
  | g :: gs => ⟨.comma, ","⟩ :: ⟨.identifier, g⟩ :: fieldSepToks gs

/-- Token run for a whole field list (possibly empty). -/
def fieldSetToks : List String → List Token
  | [] => []
  | f :: more => ⟨.identifier, f⟩ :: fieldSepToks more

/-- The field-list tail loop consumes exactly the comma separated
identifiers and stops at the closing bracket. -/
theorem parseFieldListTail_toks (more : List String) :
    ∀ (acc : List String) (rest : List Token),
      parseFieldListTail acc (fieldSepToks more ++ ⟨.rbracket, "]"⟩ :: rest) =
        .ok (acc ++ more, ⟨.rbracket, "]"⟩ :: rest) := by
  induction more with
  | nil => intro acc rest; simp [fieldSepToks, parseFieldListTail]
  | cons g gs ih =>
      intro acc rest
      simp only [fieldSepToks, List.cons_append, parseFieldListTail, List.append_eq]
      rw [ih (acc ++ [g]) rest]
      simp

/-- parseFieldList on a bracketed field list reads exactly the names. -/
theorem parseFieldList_toks (fs : List String) (rest : List Token) :
    parseFieldList (fieldSetToks fs ++ ⟨.rbracket, "]"⟩ :: rest) =
      .ok (fs, ⟨.rbracket, "]"⟩ :: rest) := by
  cases fs with
  | nil => rfl
  | cons f more =>
      simp only [fieldSetToks, List.cons_append, parseFieldList]
      rw [parseFieldListTail_toks more [f] rest]
      simp

/-- The dotted-segment loop accumulates every identifier segment before
the bracket and consumes the bracketed field set, ending the path. -/
theorem parseUsePathLoop_toks (ns : List String) :
    ∀ (acc fs : List String) (rest : List Token),
      parseUsePathLoop acc
        (dotIdentToks ns ++ ⟨.dot, "."⟩ :: ⟨.lbracket, "["⟩ ::
          (fieldSetToks fs ++ ⟨.rbracket, "]"⟩ :: rest)) =
        .ok (acc ++ ns, some fs, rest) := by
  induction ns with
  | nil =>
      intro acc fs rest
      simp only [dotIdentToks, List.nil_append, parseUsePathLoop]
      rw [parseFieldList_toks fs rest]
      simp
  | cons n ns ih =>
      intro acc fs rest
      simp only [dotIdentToks, List.cons_append, parseUsePathLoop, List.append_eq]
      rw [ih (acc ++ [n]) fs rest]
      simp

/-- C4 amended: for every USE declaration written as identifier
segments followed by a bracketed field list (and whatever tokens
follow), Parser.parseUsePath stores as path text exactly the dotted
join of the identifier segments before the bracket — the bracketed
alternatives become the field set and are never rendered into the path
— and expectedObjects returns exactly these stored path strings, one
per USE declaration in source order. -/
theorem parse_use_path_text_stops_at_bracket
    (n0 : String) (ns fs : List String) (rest : List Token) :
    parseUsePath
      (⟨.identifier, n0⟩ ::
        (dotIdentToks ns ++ ⟨.dot, "."⟩ :: ⟨.lbracket, "["⟩ ::
          (fieldSetToks fs ++ ⟨.rbracket, "]"⟩ :: rest))) =
      .ok ({ path := String.intercalate "." (n0 :: ns), fields := some fs }, rest) ∧
    ∀ prog : ProgramNode, expectedObjects prog = prog.usePaths.map UsePathNode.path := by
  constructor
  · simp only [parseUsePath]
    rw [parseUsePathLoop_toks ns [n0] fs rest]
    simp
  · intro prog
    rfl

/-! ## C10: execution results are never the undefined value, so the
sanitization step makes every returned value primitive -/

/-- PERCENT_OF always returns 0 in the first revision: its operand
SELECTs yield empty lists, so the denominator is empty. -/
theorem executePercentOf_eq (numerator denominator : SelectOp) (st : ExecState) :
    executePercentOf numerator denominator st = .ok (.vnum (.fin 0), st) := by
  simp [executePercentOf, executeSelect_eq]

/-- The most-frequent scan returns its initial value or the stored
value of some entry. -/
theorem pickMost_mem (es : List (String × ℕ × Value)) :
    ∀ b : ℕ × Value, (pickMostFrom b es).2 = b.2 ∨
      ∃ e ∈ es, (pickMostFrom b es).2 = e.2.2 := by
  induction es with
  | nil => intro b; left; rfl
  | cons e es ih =>
      intro b
      unfold pickMostFrom
      by_cases hgt : e.2.1 > b.1
      · simp only [if_pos hgt]
        rcases ih (e.2.1, e.2.2) with h | ⟨e2, he2, h⟩
        · right; exact ⟨e, List.mem_cons_self e es, h⟩
        · right; exact ⟨e2, List.mem_cons_of_mem e he2, h⟩
      · simp only [if_neg hgt]
        rcases ih b with h | ⟨e2, he2, h⟩
        · left; exact h
        · right; exact ⟨e2, List.mem_cons_of_mem e he2, h⟩

/-- The least-frequent scan returns its initial state or the count and
stored value of some entry. -/
theorem pickLeast_mem (es : List (String × ℕ × Value)) :
    ∀ b : Option (ℕ × Value),
      pickLeastFrom b es = b ∨
      ∃ e ∈ es, pickLeastFrom b es = some (e.2.1, e.2.2) := by
  induction es with
  | nil => intro b; left; rfl
  | cons e es ih =>
      intro b
      unfold pickLeastFrom
      cases b with
      | none =>
          rcases ih (some (e.2.1, e.2.2)) with h | ⟨e2, he2, h⟩
          · right; exact ⟨e, List.mem_cons_self e es, h⟩
          · right; exact ⟨e2, List.mem_cons_of_mem e he2, h⟩
      | some bb =>
          by_cases hlt : e.2.1 < bb.1
          · simp only [if_pos hlt]
            rcases ih (some (e.2.1, e.2.2)) with h | ⟨e2, he2, h⟩
            · right; exact ⟨e, List.mem_cons_self e es, h⟩
            · right; exact ⟨e2, List.mem_cons_of_mem e he2, h⟩
          · simp only [if_neg hlt]
            rcases ih (some bb) with h | ⟨e2, he2, h⟩
            · left; exact h
            · right; exact ⟨e2, List.mem_cons_of_mem e he2, h⟩

/-- addFreq preserves a property of stored values when the new value
satisfies it. -/
theorem addFreq_pres (P : Value → Prop) (acc : List (String × ℕ × Value)) (v : Value)
    (hv : P v) (hacc : ∀ e ∈ acc, P e.2.2) :
    ∀ e ∈ addFreq acc v, P e.2.2 := by
  intro e he
  unfold addFreq at he
  by_cases hfound : (acc.find? (fun en => en.1 = jsToString v)).isSome
  · simp only [if_pos hfound] at he
    obtain ⟨e0, he0, heq⟩ := List.mem_map.mp he
    by_cases hk : e0.1 = jsToString v
    · simp only [if_pos hk] at heq
      rw [← heq]
      exact hacc e0 he0
    · simp only [if_neg hk] at heq
      rw [← heq]
      exact hacc e0 he0
  · simp only [if_neg hfound] at he
    rcases List.mem_append.mp he with h | h
    · exact hacc e h
    · simp at h
      rw [h]
      exact hv

/-- Values stored in the frequency map are neither null nor undefined:
the loop skips such extracted values. -/
theorem buildFreq_values (opName : String) (ws : List Value) :
    ∀ (acc es : List (String × ℕ × Value)),
      (∀ e ∈ acc, ¬(e.2.2.isNull || e.2.2.isUndef)) →
      buildFreq opName ws acc = .ok es →
      ∀ e ∈ es, ¬(e.2.2.isNull || e.2.2.isUndef) := by
  induction ws with
  | nil =>
      intro acc es hacc h
      unfold buildFreq at h
      cases h
      exact hacc
  | cons item rest ih =>
      intro acc es hacc h
      unfold buildFreq at h
      cases hx : mfExtract opName item with
      | error e => rw [hx] at h; simp at h
      | ok v =>
          rw [hx] at h
          simp only [except_bind_ok] at h
          by_cases hskip : (v.isNull || v.isUndef) = true
          · rw [if_pos hskip] at h
            exact ih acc es hacc h
          · rw [if_neg hskip] at h
            refine ih (addFreq acc v) es ?_ h
            exact addFreq_pres (fun w => ¬(w.isNull || w.isUndef)) acc v
              (by simpa using hskip) hacc

/-- MOST_FREQUENT never returns the undefined value. -/
theorem executeMostFrequent_ne_undef (ws : List Value) (v : Value)
    (h : executeMostFrequent ws = .ok v) : v.isUndef = false := by
  unfold executeMostFrequent at h
  cases ws with
  | nil => cases h; rfl
  | cons i rest =>
      cases hb : buildFreq
          "Cannot find most frequent value of objects with multiple properties"
          (i :: rest) [] with
      | error e => rw [hb] at h; simp at h
      | ok es =>
          rw [hb] at h
          simp only [except_bind_ok] at h
          by_cases hemp : es.isEmpty
          · rw [if_pos hemp] at h; cases h; rfl
          · rw [if_neg hemp] at h
            cases h
            have hvals := buildFreq_values _ (i :: rest) [] es (by simp) hb
            unfold pickMost
            rcases pickMost_mem es ((0 : ℕ), Value.vnull) with hh | ⟨e, he, hh⟩
            · rw [hh]; rfl
            · rw [hh]
              have := hvals e he
              cases hv : e.2.2.isUndef
              · rfl
              · exfalso; apply this; simp [hv]

/-- LEAST_FREQUENT never returns the undefined value. -/
theorem executeLeastFrequent_ne_undef (ws : List Value) (v : Value)
    (h : executeLeastFrequent ws = .ok v) : v.isUndef = false := by
  unfold executeLeastFrequent at h
  cases ws with
  | nil => cases h; rfl
  | cons i rest =>
      cases hb : buildFreq
          "Cannot find least frequent value of objects with multiple properties"
          (i :: rest) [] with
      | error e => rw [hb] at h; simp at h
      | ok es =>
          rw [hb] at h
          simp only [except_bind_ok] at h
          by_cases hemp : es.isEmpty
          · rw [if_pos hemp] at h; cases h; rfl
          · rw [if_neg hemp] at h
            cases h
            have hvals := buildFreq_values _ (i :: rest) [] es (by simp) hb
            unfold pickLeast
            rcases pickLeast_mem es none with hh | ⟨e, he, hh⟩
            · rw [hh]; rfl
            · rw [hh]
              have := hvals e he
              show e.2.2.isUndef = false
              cases hv : e.2.2.isUndef
              · rfl
              · exfalso; apply this; simp [hv]

/-- No operation ever produces the undefined value as its result. -/
theorem executeOperation_ne_undef (op : OperationNode) :
    ∀ (st : ExecState) (v : Value) (st2 : ExecState),
      executeOperation op st = .ok (v, st2) → v.isUndef = false := by
  induction op with
  | selectOp sel =>
      intro st v st2 h
      unfold executeOperation at h
      rw [executeSelect_eq] at h
      cases h
      rfl
  | countOp sel =>
      intro st v st2 h
      unfold executeOperation at h
      rw [executeCount_eq] at h
      cases h
      rfl
  | percentOfOp n d =>
      intro st v st2 h
      unfold executeOperation at h
      rw [executePercentOf_eq] at h
      cases h
      rfl
  | mostFrequentOp =>
      intro st v st2 h
      unfold executeOperation at h
      cases hm : executeMostFrequent st.workingSet with
      | error e => rw [hm] at h; simp at h
      | ok w =>
          rw [hm] at h
          simp only [except_bind_ok] at h
          cases h
          exact executeMostFrequent_ne_undef _ _ hm
  | leastFrequentOp =>
      intro st v st2 h
      unfold executeOperation at h
      cases hm : executeLeastFrequent st.workingSet with
      | error e => rw [hm] at h; simp at h
      | ok w =>
          rw [hm] at h
          simp only [except_bind_ok] at h
          cases h
          exact executeLeastFrequent_ne_undef _ _ hm
  | varAssign name inner ih =>
      intro st v st2 h
      unfold executeOperation at h
      cases hi : executeOperation inner st with
      | error e => rw [hi] at h; simp at h
      | ok p =>
          rw [hi] at h
          simp only [except_bind_ok] at h
          cases h
          exact ih st p.1 p.2 (by rw [hi])
  | sumOp =>
      intro st v st2 h
      unfold executeOperation at h
      cases hm : executeSum st.workingSet with
      | error e => rw [hm] at h; simp at h
      | ok n => rw [hm] at h; simp only [except_bind_ok] at h; cases h; rfl
  | divideOp a b =>
      intro st v st2 h
      unfold executeOperation at h
      cases hm : executeDivide a b st with
      | error e => rw [hm] at h; simp at h
      | ok n => rw [hm] at h; simp only [except_bind_ok] at h; cases h; rfl
  | multiplyOp a b =>
      intro st v st2 h
      unfold executeOperation at h
      cases hm : executeMultiply a b st with
      | error e => rw [hm] at h; simp at h
      | ok n => rw [hm] at h; simp only [except_bind_ok] at h; cases h; rfl
  | subtractOp a b =>
      intro st v st2 h
      unfold executeOperation at h
      cases hm : executeSubtract a b st with
      | error e => rw [hm] at h; simp at h
      | ok n => rw [hm] at h; simp only [except_bind_ok] at h; cases h; rfl
  | averageOp =>
      intro st v st2 h
      unfold executeOperation at h
      cases hm : executeAverage st.workingSet with
      | error e => rw [hm] at h; simp at h
      | ok n => rw [hm] at h; simp only [except_bind_ok] at h; cases h; rfl
  | medianOp =>
      intro st v st2 h
      unfold executeOperation at h
      cases hm : executeMedian st.workingSet with
      | error e => rw [hm] at h; simp at h
      | ok n => rw [hm] at h; simp only [except_bind_ok] at h; cases h; rfl
  | minOp =>
      intro st v st2 h
      unfold executeOperation at h
      cases hm : executeMin st.workingSet with
      | error e => rw [hm] at h; simp at h
      | ok n => rw [hm] at h; simp only [except_bind_ok] at h; cases h; rfl
  | maxOp =>
      intro st v st2 h
      unfold executeOperation at h
      cases hm : executeMax st.workingSet with
      | error e => rw [hm] at h; simp at h
      | ok n => rw [hm] at h; simp only [except_bind_ok] at h; cases h; rfl
  | uniqueOp =>
      intro st v st2 h
      unfold executeOperation at h
      cases hm : executeUnique st.workingSet with
      | error e => rw [hm] at h; simp at h
      | ok l => rw [hm] at h; simp only [except_bind_ok] at h; cases h; rfl
  | standardDeviationOp =>
      intro st v st2 h
      unfold executeOperation at h
      cases hm : executeStandardDeviation st.workingSet with
      | error e => rw [hm] at h; simp at h
      | ok n => rw [hm] at h; simp only [except_bind_ok] at h; cases h; rfl
  | varianceOp =>
      intro st v st2 h
      unfold executeOperation at h
      cases hm : executeVariance st.workingSet with
      | error e => rw [hm] at h; simp at h
      | ok n => rw [hm] at h; simp only [except_bind_ok] at h; cases h; rfl
  | rangeOp =>
      intro st v st2 h
      unfold executeOperation at h
      cases hm : executeRange st.workingSet with
      | error e => rw [hm] at h; simp at h
      | ok n => rw [hm] at h; simp only [except_bind_ok] at h; cases h; rfl

/-- The operation loop preserves non-undefinedness of the threaded
result. -/
theorem runOperations_ne_undef (ops : List OperationNode) :
    ∀ (r0 : Value) (st : ExecState) (v : Value) (st2 : ExecState),
      r0.isUndef = false → runOperations ops r0 st = .ok (v, st2) →
      v.isUndef = false := by
  induction ops with
  | nil =>
      intro r0 st v st2 h0 h
      unfold runOperations at h
      cases h
      exact h0
  | cons op rest ih =>
      intro r0 st v st2 h0 h
      unfold runOperations at h
      cases ho : executeOperation op st with
      | error e => rw [ho] at h; simp at h
      | ok p =>
          rw [ho] at h
          simp only [except_bind_ok] at h
          exact ih p.1 p.2 v st2 (executeOperation_ne_undef op st p.1 p.2 (by rw [ho])) h

/-- A query block's value is never the undefined value. -/
theorem execBlock_ne_undef (data : Value) (us : List UsePathNode)
    (b : QueryBlockNode) (vars : VarStore) (v : Value) (vars2 : VarStore)
    (h : execBlock data us b vars = .ok (v, vars2)) : v.isUndef = false := by
  unfold execBlock at h
  cases hr : runOperations b.operations .vnull ⟨data, vars, resolveDataFromUsePaths us data⟩ with
  | error e => rw [hr] at h; simp at h
  | ok p =>
      rw [hr] at h
      simp only [except_map_ok] at h
      cases h
      exact runOperations_ne_undef b.operations .vnull _ p.1 p.2 rfl hr

/-- setAssoc preserves a property of the stored values. -/
theorem setAssoc_pres (P : Value → Prop) (acc : List (String × Value))
    (name : String) (v : Value) (hv : P v) (hacc : ∀ kv ∈ acc, P kv.2) :
    ∀ kv ∈ setAssoc acc name v, P kv.2 := by
  intro kv hkv
  unfold setAssoc at hkv
  by_cases hfound : (acc.find? (fun kw => kw.1 = name)).isSome
  · simp only [if_pos hfound] at hkv
    obtain ⟨kw, hkw, heq⟩ := List.mem_map.mp hkv
    by_cases hk : kw.1 = name
    · simp only [if_pos hk] at heq; rw [← heq]; exact hv
    · simp only [if_neg hk] at heq; rw [← heq]; exact hacc kw hkw
  · simp only [if_neg hfound] at hkv
    rcases List.mem_append.mp hkv with h | h
    · exact hacc kv h
    · simp at h; rw [h]; exact hv

/-- The block loop's result record never stores the undefined value. -/
theorem runBlocksFrom_ne_undef (data : Value) (us : List UsePathNode)
    (blocks : List QueryBlockNode) :
    ∀ (vars : VarStore) (acc : List (String × Value)) (vars2 : VarStore)
      (res : List (String × Value)),
      (∀ kv ∈ acc, kv.2.isUndef = false) →
      runBlocksFrom data us blocks vars acc = .ok (vars2, res) →
      ∀ kv ∈ res, kv.2.isUndef = false := by
  induction blocks with
  | nil =>
      intro vars acc vars2 res hacc h
      unfold runBlocksFrom at h
      cases h
      exact hacc
  | cons b rest ih =>
      intro vars acc vars2 res hacc h
      rw [runBlocksFrom_cons] at h
      cases hb : execBlock data us b vars with
      | error e => rw [hb] at h; simp at h
      | ok p =>
          rw [hb] at h
          simp only [except_bind_ok] at h
          refine ih p.2 (setAssoc acc b.name p.1) vars2 res ?_ h
          intro kv hkv
          exact setAssoc_pres (fun w => w.isUndef = false) acc b.name p.1
            (execBlock_ne_undef data us b vars p.1 p.2 (by rw [hb])) hacc kv hkv

/-- Sanitizing a defined value yields a primitive. -/
theorem sanitizeValue_prim (v : Value) (h : v.isUndef = false) :
    (sanitizeValue v).isPrim = true := by
  cases v with
  | vundef => simp [Value.isUndef] at h
  | vnull => rfl
  | vbool b => rfl
  | vnum n => rfl
  | vstr s => rfl
  | varr items => rfl
  | vobj fs => rfl

/-- C10: whenever the createQuery execute pipeline succeeds, every value
in the returned name-to-result map is a primitive (null, boolean,
number, or string); list and record results are not returned as
structured values but as their JSON string serialization (the
sanitization maps an array or object result to the string produced by
JSON.stringify). -/
theorem execute_results_are_primitive (prog : ProgramNode) (data : Value)
    (res : List (String × Value))
    (h : executeSanitized prog data = .ok res) :
    (∀ kv ∈ res, kv.2.isPrim = true) ∧
    (∀ items, sanitizeValue (.varr items) = .vstr (stringify (.varr items))) ∧
    (∀ fs, sanitizeValue (.vobj fs) = .vstr (stringify (.vobj fs))) := by
  refine ⟨?_, fun items => rfl, fun fs => rfl⟩
  unfold executeSanitized at h
  cases hp : executeProgram prog data with
  | error e => rw [hp] at h; simp at h
  | ok raw =>
      rw [hp] at h
      simp only [except_map_ok] at h
      cases h
      intro kv hkv
      obtain ⟨kw, hkw, heq⟩ := List.mem_map.mp hkv
      have hraw : ∀ kv ∈ raw, kv.2.isUndef = false := by
        unfold executeProgram at hp
        cases hr : runBlocksFrom data prog.usePaths prog.queryBlocks [] [] with
        | error e => rw [hr] at hp; simp at hp
        | ok p =>
            rw [hr] at hp
            simp only [except_map_ok] at hp
            cases hp
            exact runBlocksFrom_ne_undef data prog.usePaths prog.queryBlocks
              [] [] p.1 p.2 (by simp) hr
      rw [← heq]
      exact sanitizeValue_prim kw.2 (hraw kw hkw)

/-- Witness for C10: a one-block program whose SUM over the empty
working set succeeds; the returned map is all primitives and the
sanitization conjuncts hold. -/
theorem execute_results_are_primitive_witness :
    (∀ kv ∈ [(("q" : String), Value.vnum (.fin 0))], kv.2.isPrim = true) ∧
    (∀ items, sanitizeValue (.varr items) = .vstr (stringify (.varr items))) ∧
    (∀ fs, sanitizeValue (.vobj fs) = .vstr (stringify (.vobj fs))) :=
  execute_results_are_primitive ⟨[], [⟨"q", [.sumOp]⟩]⟩ .vnull
    [("q", Value.vnum (.fin 0))] (by decide)

/-! ## C7: MOST_FREQUENT and LEAST_FREQUENT pick the first-seen value
among those of maximal respectively minimal occurrence count -/

/-- Specification-side per-item extraction: a scalar is itself, a
single-key projection is its sole value, anything else (a multi-key
record) is rejected. -/
def specExtract (item : Value) : Option Value :=
  if !item.isObjLike then some item
  else
    match jsKeys item with
    | [k] => some (jsGet item k)
    | _ => none

/-- Specification-side frequency table: extract every item's value,
drop null and undefined values entirely, then count occurrences keyed
by the value's string form, in first-seen order. -/
def freqEntriesOf (ws : List Value) : List (String × ℕ × Value) :=
  ((ws.filterMap specExtract).filter (fun v => !(v.isNull || v.isUndef))).foldl addFreq []

/-- Maximum of the occurrence counts, folded from a floor value. -/
def maxCountFrom (m : ℕ) : List (String × ℕ × Value) → ℕ
  | [] => m
  | e :: es => maxCountFrom (max m e.2.1) es

/-- Minimum of the occurrence counts, folded from a ceiling value. -/
def minCountFrom (m : ℕ) : List (String × ℕ × Value) → ℕ
  | [] => m
  | e :: es => minCountFrom (min m e.2.1) es

/-- Specification of MOST_FREQUENT: the stored value of the first
frequency entry whose count equals the maximal count (entries are in
first-seen order), null when there are no entries. -/
def specMostFrequent (ws : List Value) : Value :=
  let es := freqEntriesOf ws
  (((es.find? (fun e => e.2.1 = maxCountFrom 0 es)).map (fun e => e.2.2))).getD .vnull

/-- Specification of LEAST_FREQUENT: the stored value of the first
frequency entry whose count equals the minimal count, null when there
are no entries. -/
def specLeastFrequent (ws : List Value) : Value :=
  match freqEntriesOf ws with
  | [] => .vnull
  | e0 :: rest =>
      (((e0 :: rest).find?
          (fun e => e.2.1 = minCountFrom e0.2.1 rest)).map (fun e => e.2.2)).getD .vnull

/-- Folding the maximum from a floor splits into max with the floor. -/
theorem maxCountFrom_split (es : List (String × ℕ × Value)) :
    ∀ m, maxCountFrom m es = max m (maxCountFrom 0 es) := by
  induction es with
  | nil => intro m; simp [maxCountFrom]
  | cons e es ih =>
      intro m
      simp only [maxCountFrom]
      rw [ih (max m e.2.1), ih (max 0 e.2.1)]
      omega

/-- The floor bounds the folded maximum. -/
theorem maxCountFrom_le (es : List (String × ℕ × Value)) (m : ℕ) :
    m ≤ maxCountFrom m es := by
  rw [maxCountFrom_split]; omega

/-- Folding the minimum from a ceiling splits into min with the head. -/
theorem minCountFrom_split (es : List (String × ℕ × Value)) :
    ∀ m m2, minCountFrom (min m m2) es = min m (minCountFrom m2 es) := by
  induction es with
  | nil => intro m m2; simp [minCountFrom]
  | cons e es ih =>
      intro m m2
      simp only [minCountFrom]
      rw [show min (min m m2) e.2.1 = min m (min m2 e.2.1) by omega, ih m (min m2 e.2.1)]

/-- The ceiling bounds the folded minimum. -/
theorem minCountFrom_ge (es : List (String × ℕ × Value)) (m : ℕ) :
    minCountFrom m es ≤ m := by
  have h := minCountFrom_split es m m
  simp only [min_self] at h
  omega

/-- When some entry strictly exceeds the floor, an entry attaining the
folded maximum exists. -/
theorem find_max_isSome (es : List (String × ℕ × Value)) :
    ∀ m, maxCountFrom m es ≠ m →
      (es.find? (fun e => e.2.1 = maxCountFrom m es)).isSome := by
  induction es with
  | nil => intro m h; simp [maxCountFrom] at h
  | cons e es ih =>
      intro m h
      simp only [maxCountFrom] at h ⊢
      by_cases h1 : e.2.1 = maxCountFrom (max m e.2.1) es
      · rw [List.find?_cons_of_pos _ (by simpa using h1)]
        rfl
      · rw [List.find?_cons_of_neg _ (by simpa using h1)]
        refine ih (max m e.2.1) ?_
        intro heq
        have hle := maxCountFrom_le es (max m e.2.1)
        rw [heq] at h h1
        omega

/-- When some entry falls strictly below the ceiling, an entry attaining
the folded minimum exists. -/
theorem find_min_isSome (es : List (String × ℕ × Value)) :
    ∀ m, minCountFrom m es ≠ m →
      (es.find? (fun e => e.2.1 = minCountFrom m es)).isSome := by
  induction es with
  | nil => intro m h; simp [minCountFrom] at h
  | cons e es ih =>
      intro m h
      simp only [minCountFrom] at h ⊢
      by_cases h1 : e.2.1 = minCountFrom (min m e.2.1) es
      · rw [List.find?_cons_of_pos _ (by simpa using h1)]
        rfl
      · rw [List.find?_cons_of_neg _ (by simpa using h1)]
        refine ih (min m e.2.1) ?_
        intro heq
        have hge := minCountFrom_ge es (min m e.2.1)
        rw [heq] at h h1
        omega

/-- The strict-improvement maximum scan keeps its initial pair when no
entry strictly exceeds the floor, and otherwise lands on the first
entry attaining the overall maximum count. -/
theorem pickMostFrom_spec (es : List (String × ℕ × Value)) :
    ∀ (m : ℕ) (v : Value),
      pickMostFrom (m, v) es =
        if maxCountFrom m es = m then (m, v)
        else (maxCountFrom m es,
          ((es.find? (fun e => e.2.1 = maxCountFrom m es)).map (fun e => e.2.2)).getD v) := by
  induction es with
  | nil => intro m v; simp [pickMostFrom, maxCountFrom]
  | cons e es ih =>
      intro m v
      simp only [pickMostFrom, maxCountFrom]
      by_cases hcm : e.2.1 > m
      · rw [if_pos hcm]
        simp only [show max m e.2.1 = e.2.1 from by omega]
        rw [ih e.2.1 e.2.2]
        by_cases hA : maxCountFrom e.2.1 es = e.2.1
        · rw [if_pos hA, if_neg (by omega)]
          rw [List.find?_cons_of_pos _ (by simp [hA])]
          simp [hA]
        · have hgt : e.2.1 < maxCountFrom e.2.1 es := by
            have := maxCountFrom_le es e.2.1; omega
          rw [if_neg hA, if_neg (by omega)]
          rw [List.find?_cons_of_neg _ (by simp; omega)]
          obtain ⟨e2, he2⟩ := Option.isSome_iff_exists.mp (find_max_isSome es e.2.1 hA)
          rw [he2]
          simp
      · rw [if_neg hcm]
        simp only [show max m e.2.1 = m from by omega]
        rw [ih m v]
        by_cases hB : maxCountFrom m es = m
        · rw [if_pos hB, if_pos hB]
        · have hgt : m < maxCountFrom m es := by
            have := maxCountFrom_le es m; omega
          rw [if_neg hB, if_neg hB]
          rw [List.find?_cons_of_neg _ (by simp; omega)]

/-- The strict-improvement minimum scan (already holding a pair) keeps
it when no entry falls strictly below the ceiling, and otherwise lands
on the first entry attaining the overall minimum count. -/
theorem pickLeastFrom_spec (es : List (String × ℕ × Value)) :
    ∀ (m : ℕ) (v : Value),
      pickLeastFrom (some (m, v)) es =
        some (if minCountFrom m es = m then (m, v)
          else (minCountFrom m es,
            ((es.find? (fun e => e.2.1 = minCountFrom m es)).map (fun e => e.2.2)).getD v)) := by
  induction es with
  | nil => intro m v; simp [pickLeastFrom, minCountFrom]
  | cons e es ih =>
      intro m v
      simp only [pickLeastFrom, minCountFrom]
      by_cases hcm : e.2.1 < m
      · rw [if_pos hcm]
        simp only [show min m e.2.1 = e.2.1 from by omega]
        rw [ih e.2.1 e.2.2]
        by_cases hA : minCountFrom e.2.1 es = e.2.1
        · rw [if_pos hA, if_neg (by omega)]
          rw [List.find?_cons_of_pos _ (by simp [hA])]
          simp [hA]
        · have hlt : minCountFrom e.2.1 es < e.2.1 := by
            have := minCountFrom_ge es e.2.1; omega
          rw [if_neg hA, if_neg (by omega)]
          rw [List.find?_cons_of_neg _ (by simp; omega)]
          obtain ⟨e2, he2⟩ := Option.isSome_iff_exists.mp (find_min_isSome es e.2.1 hA)
          rw [he2]
          simp
      · rw [if_neg hcm]
        simp only [show min m e.2.1 = m from by omega]
        rw [ih m v]
        by_cases hB : minCountFrom m es = m
        · rw [if_pos hB, if_pos hB]
        · have hlt : minCountFrom m es < m := by
            have := minCountFrom_ge es m; omega
          rw [if_neg hB, if_neg hB]
          rw [List.find?_cons_of_neg _ (by simp; omega)]

/-- mfExtract agrees with the specification extraction, erring exactly
when it is undefined. -/
theorem mfExtract_spec (opName : String) (item : Value) :
    mfExtract opName item =
      match specExtract item with
      | some v => .ok v
      | none => .error (.multiPropAggregate opName) := by
  unfold mfExtract specExtract
  by_cases h : item.isObjLike
  · simp only [h, Bool.not_true, Bool.false_eq_true, if_false]
    cases hk : jsKeys item with
    | nil => rfl
    | cons k rest =>
        cases rest with
        | nil => rfl
        | cons k2 more => rfl
  · simp only [eq_false_of_ne_true h, Bool.not_false, if_true]

/-- Under total extraction, the executor's frequency loop computes the
specification's frequency table. -/
theorem buildFreq_spec (opName : String) (ws : List Value) :
    ∀ acc, (∀ i ∈ ws, (specExtract i).isSome) →
      buildFreq opName ws acc =
        .ok (((ws.filterMap specExtract).filter
            (fun v => !(v.isNull || v.isUndef))).foldl addFreq acc) := by
  induction ws with
  | nil => intro acc hex; rfl
  | cons i rest ih =>
      intro acc hex
      obtain ⟨v, hv⟩ := Option.isSome_iff_exists.mp (hex i (List.mem_cons_self i rest))
      unfold buildFreq
      rw [mfExtract_spec, hv]
      simp only [except_bind_ok, List.filterMap_cons, hv, List.filter_cons]
      by_cases hskip : (v.isNull || v.isUndef) = true
      · rw [if_pos hskip]
        simp only [hskip, Bool.not_true, Bool.false_eq_true, if_false]
        exact ih acc (fun j hj => hex j (List.mem_cons_of_mem i hj))
      · rw [if_neg hskip]
        simp only [eq_false_of_ne_true hskip, Bool.not_false, if_true, List.foldl_cons]
        exact ih (addFreq acc v) (fun j hj => hex j (List.mem_cons_of_mem i hj))

/-- Counts in the frequency table are at least one. -/
theorem addFreq_counts (acc : List (String × ℕ × Value)) (v : Value)
    (hacc : ∀ e ∈ acc, 1 ≤ e.2.1) : ∀ e ∈ addFreq acc v, 1 ≤ e.2.1 := by
  intro e he
  unfold addFreq at he
  by_cases hfound : (acc.find? (fun en => en.1 = jsToString v)).isSome
  · simp only [if_pos hfound] at he
    obtain ⟨e0, he0, heq⟩ := List.mem_map.mp he
    by_cases hk : e0.1 = jsToString v
    · simp only [if_pos hk] at heq
      rw [← heq]
      simp
    · simp only [if_neg hk] at heq
      rw [← heq]
      exact hacc e0 he0
  · simp only [if_neg hfound] at he
    rcases List.mem_append.mp he with h | h
    · exact hacc e h
    · simp at h; rw [h]

/-- Every entry of a folded frequency table has a positive count. -/
theorem foldl_addFreq_counts (vs : List Value) :
    ∀ acc, (∀ e ∈ acc, 1 ≤ e.2.1) → ∀ e ∈ vs.foldl addFreq acc, 1 ≤ e.2.1 := by
  induction vs with
  | nil => intro acc hacc; simpa using hacc
  | cons v vs ih =>
      intro acc hacc
      simp only [List.foldl_cons]
      exact ih (addFreq acc v) (addFreq_counts acc v hacc)

/-- The overall maximum count of a nonempty positive-count table is
positive. -/
theorem maxCountFrom_pos (e : String × ℕ × Value) (es : List (String × ℕ × Value))
    (he : 1 ≤ e.2.1) : maxCountFrom 0 (e :: es) ≠ 0 := by
  simp only [maxCountFrom]
  have := maxCountFrom_le es (max 0 e.2.1)
  omega

/-- C7: over any working set whose items are all scalars or single-key
projections, MOST_FREQUENT returns the first-seen value among those of
maximal occurrence count and LEAST_FREQUENT the first-seen value among
those of minimal count (occurrences are counted by the value's string
form, in first-seen order, as the JS Map does), with null and undefined
extracted values excluded from the counting entirely; in particular a
working set whose extracted values are all null yields null. -/
theorem frequency_operators_first_seen_tiebreak (ws : List Value)
    (hex : ∀ i ∈ ws, (specExtract i).isSome) :
    executeMostFrequent ws = .ok (specMostFrequent ws) ∧
    executeLeastFrequent ws = .ok (specLeastFrequent ws) ∧
    ((∀ i ∈ ws, specExtract i = some .vnull) →
      specMostFrequent ws = .vnull ∧ specLeastFrequent ws = .vnull) := by
  have hcounts : ∀ e ∈ freqEntriesOf ws, 1 ≤ e.2.1 :=
    foldl_addFreq_counts _ [] (by simp)
  refine ⟨?_, ?_, ?_⟩
  · cases hws : ws with
    | nil => rfl
    | cons i rest =>
        unfold executeMostFrequent
        rw [buildFreq_spec _ (i :: rest) [] (hws ▸ hex)]
        simp only [except_bind_ok]
        have hfe : ((( i :: rest).filterMap specExtract).filter
            (fun v => !(v.isNull || v.isUndef))).foldl addFreq [] =
            freqEntriesOf (i :: rest) := rfl
        rw [hfe]
        cases hes : freqEntriesOf (i :: rest) with
        | nil => simp [specMostFrequent, hws, hes]
        | cons e0 es' =>
            simp only [List.isEmpty_cons, Bool.false_eq_true, if_false]
            unfold pickMost
            rw [pickMostFrom_spec]
            have hpos : maxCountFrom 0 (e0 :: es') ≠ 0 := by
              refine maxCountFrom_pos e0 es' ?_
              refine hcounts e0 ?_
              rw [hws, hes]
              exact List.mem_cons_self e0 es'
            rw [if_neg hpos]
            unfold specMostFrequent
            simp only [hes]
  · cases hws : ws with
    | nil => rfl
    | cons i rest =>
        unfold executeLeastFrequent
        rw [buildFreq_spec _ (i :: rest) [] (hws ▸ hex)]
        simp only [except_bind_ok]
        have hfe : ((( i :: rest).filterMap specExtract).filter
            (fun v => !(v.isNull || v.isUndef))).foldl addFreq [] =
            freqEntriesOf (i :: rest) := rfl
        rw [hfe]
        cases hes : freqEntriesOf (i :: rest) with
        | nil => simp [specLeastFrequent, hws, hes]
        | cons e0 es' =>
            simp only [List.isEmpty_cons, Bool.false_eq_true, if_false]
            unfold pickLeast
            have hstep : pickLeastFrom none (e0 :: es') =
                pickLeastFrom (some (e0.2.1, e0.2.2)) es' := rfl
            rw [hstep, pickLeastFrom_spec]
            unfold specLeastFrequent
            simp only [hes]
            by_cases hA : minCountFrom e0.2.1 es' = e0.2.1
            · rw [if_pos hA]
              rw [List.find?_cons_of_pos _ (by simp [hA])]
              simp
            · rw [if_neg hA]
              rw [List.find?_cons_of_neg _ (by simp; omega)]
              obtain ⟨e2, he2⟩ :=
                Option.isSome_iff_exists.mp (find_min_isSome es' e0.2.1 hA)
              rw [he2]
              simp
  · intro hnull
    have hes : freqEntriesOf ws = [] := by
      unfold freqEntriesOf
      have hfil : ((ws.filterMap specExtract).filter
          (fun v => !(v.isNull || v.isUndef))) = [] := by
        rw [List.filter_eq_nil_iff]
        intro v hv
        obtain ⟨i, hi, hsome⟩ := List.mem_filterMap.mp hv
        rw [hnull i hi] at hsome
        cases hsome
        simp [Value.isNull]
      rw [hfil]
      rfl
    constructor
    · unfold specMostFrequent
      rw [hes]
      rfl
    · unfold specLeastFrequent
      rw [hes]

/-- Witness for C7 on the working set of Scenario A's category
projections: two records with category A, one with category B. -/
theorem frequency_operators_first_seen_tiebreak_witness :
    executeMostFrequent
        [Value.vobj [("cat", .vstr "A")], .vobj [("cat", .vstr "A")],
         .vobj [("cat", .vstr "B")]] =
      .ok (specMostFrequent
        [Value.vobj [("cat", .vstr "A")], .vobj [("cat", .vstr "A")],
         .vobj [("cat", .vstr "B")]]) ∧
    executeLeastFrequent
        [Value.vobj [("cat", .vstr "A")], .vobj [("cat", .vstr "A")],
         .vobj [("cat", .vstr "B")]] =
      .ok (specLeastFrequent
        [Value.vobj [("cat", .vstr "A")], .vobj [("cat", .vstr "A")],
         .vobj [("cat", .vstr "B")]]) ∧
    ((∀ i ∈ [Value.vobj [("cat", .vstr "A")], .vobj [("cat", .vstr "A")],
         .vobj [("cat", .vstr "B")]], specExtract i = some .vnull) →
      specMostFrequent
          [Value.vobj [("cat", .vstr "A")], .vobj [("cat", .vstr "A")],
           .vobj [("cat", .vstr "B")]] = .vnull ∧
      specLeastFrequent
          [Value.vobj [("cat", .vstr "A")], .vobj [("cat", .vstr "A")],
           .vobj [("cat", .vstr "B")]] = .vnull) :=
  frequency_operators_first_seen_tiebreak
    [Value.vobj [("cat", .vstr "A")], .vobj [("cat", .vstr "A")],
     .vobj [("cat", .vstr "B")]] (by decide)

/-! ## C5: how the numeric aggregates treat non-numeric elements -/

/-- The Number() coercion restricted to finite results: none stands for
NaN (and the theorem hypotheses exclude the infinities). -/
def toNumQ (v : Value) : Option ℚ :=
  match toNum v with
  | .fin q => some q
  | _ => none

/-- The numeric values of a working set, non-numeric elements dropped. -/
def numericOf (ws : List Value) : List ℚ := ws.filterMap toNumQ

/-- Sum with non-numeric elements coerced to 0. -/
def sumCoerce0 (ws : List Value) : ℚ := (ws.map (fun v => (toNumQ v).getD 0)).sum

/-- Minimum of a rational list, 0 when empty. -/
def minOr0 : List ℚ → ℚ
  | [] => 0
  | q :: r => r.foldl min q

/-- Maximum of a rational list, 0 when empty. -/
def maxOr0 : List ℚ → ℚ
  | [] => 0
  | q :: r => r.foldl max q

/-- Stable insertion into an ascending rational run. -/
def insertQ (x : ℚ) : List ℚ → List ℚ
  | [] => [x]
  | y :: ys => if x < y then x :: y :: ys else y :: insertQ x ys

/-- Stable ascending sort of a rational list. -/
def sortQ (l : List ℚ) : List ℚ := l.foldr insertQ []

/-- Median of the numeric values; 0 when none. -/
def medianOf (qs : List ℚ) : ℚ :=
  if qs.isEmpty then 0
  else if (sortQ qs).length % 2 = 0 then
    ((sortQ qs).getD ((sortQ qs).length / 2 - 1) 0 +
     (sortQ qs).getD ((sortQ qs).length / 2) 0) / 2
  else (sortQ qs).getD ((sortQ qs).length / 2) 0

/-- Sample variance of the numeric values; 0 when the working set or
the numeric values number at most one. -/
def varianceOf (wsLen : ℕ) (qs : List ℚ) : ℚ :=
  if wsLen ≤ 1 then 0
  else if qs.length ≤ 1 then 0
  else
    (qs.map (fun q => (q - qs.sum / qs.length) * (q - qs.sum / qs.length))).sum /
      ((qs.length : ℚ) - 1)

/-- Addition of finite JavaScript numbers is rational addition. -/
theorem jadd_fin (a b : ℚ) : jadd (.fin a) (.fin b) = .fin (a + b) := rfl

/-- Negation of a finite JavaScript number is rational negation. -/
theorem jneg_fin (a : ℚ) : jneg (.fin a) = .fin (-a) := rfl

/-- Subtraction of finite JavaScript numbers is rational subtraction. -/
theorem jsub_fin (a b : ℚ) : jsub (.fin a) (.fin b) = .fin (a - b) := by
  simp [jsub, jneg_fin, jadd_fin, sub_eq_add_neg]

/-- Multiplication of finite JavaScript numbers is rational
multiplication. -/
theorem jmul_fin (a b : ℚ) : jmul (.fin a) (.fin b) = .fin (a * b) := rfl

/-- Division of finite JavaScript numbers by a nonzero divisor is
rational division. -/
theorem jdiv_fin (a b : ℚ) (hb : b ≠ 0) : jdiv (.fin a) (.fin b) = .fin (a / b) := by
  simp [jdiv, hb]

/-- The order test on finite JavaScript numbers is the rational one. -/
theorem jlt_fin (a b : ℚ) : jlt (.fin a) (.fin b) = decide (a < b) := rfl

/-- Under the no-infinity hypothesis the NaN filter computes exactly the
numeric values, wrapped as finite numbers. -/
theorem filterMap_denan_eq (ws : List Value)
    (h2 : ∀ v ∈ ws, toNum v ≠ .inf ∧ toNum v ≠ .ninf) :
    ws.filterMap (fun v => denan (toNum v)) = (numericOf ws).map JNum.fin := by
  induction ws with
  | nil => rfl
  | cons v rest ih =>
      have hv := h2 v (List.mem_cons_self v rest)
      have ihr := ih (fun w hw => h2 w (List.mem_cons_of_mem v hw))
      cases hn : toNum v with
      | fin q =>
          have hd : denan (toNum v) = some (JNum.fin q) := by simp [denan, hn]
          have ht : toNumQ v = some q := by simp [toNumQ, hn]
          simp only [numericOf] at ihr ⊢
          simp only [List.filterMap_cons, hd, ht, List.map_cons, ihr]
      | nan =>
          have hd : denan (toNum v) = none := by simp [denan, hn]
          have ht : toNumQ v = none := by simp [toNumQ, hn]
          simp only [numericOf] at ihr ⊢
          simp only [List.filterMap_cons, hd, ht, ihr]
      | inf => exact absurd hn hv.1
      | ninf => exact absurd hn hv.2

/-- When the first element is a scalar, the shared extractor takes the
scalar path. -/
theorem extractNums_scalar (opName : String) (first : Value) (rest : List Value)
    (hfe : first.isObjLike = false) :
    extractNums opName (first :: rest) =
      .ok ((first :: rest).filterMap (fun v => denan (toNum v))) := by
  have hc : (!first.isObjLike) = true := by rw [hfe]; rfl
  simp [extractNums, hc]

/-- The coercing sum fold computes the coerce-to-zero sum. -/
theorem sum_fold_coerce (ws : List Value)
    (h2 : ∀ v ∈ ws, toNum v ≠ .inf ∧ toNum v ≠ .ninf) :
    ∀ a : ℚ,
      ws.foldl (fun s v =>
        jadd s (match denan (toNum v) with | some n => n | none => .fin 0)) (.fin a) =
      .fin (a + sumCoerce0 ws) := by
  induction ws with
  | nil => intro a; simp [sumCoerce0]
  | cons v rest ih =>
      intro a
      have hv := h2 v (List.mem_cons_self v rest)
      have ihr := ih (fun w hw => h2 w (List.mem_cons_of_mem v hw))
      simp only [List.foldl_cons]
      cases hn : toNum v with
      | fin q =>
          have hd : (match denan (JNum.fin q) with | some n => n | none => JNum.fin 0) =
              JNum.fin q := by simp [denan]
          have ht : toNumQ v = some q := by simp [toNumQ, hn]
          rw [hd, jadd_fin, ihr (a + q)]
          simp only [sumCoerce0, List.map_cons, List.sum_cons, ht, Option.getD_some,
            JNum.fin.injEq]
          ring
      | nan =>
          have hd : (match denan JNum.nan with | some n => n | none => JNum.fin 0) =
              JNum.fin 0 := by simp [denan]
          have ht : toNumQ v = none := by simp [toNumQ, hn]
          rw [hd, jadd_fin, ihr (a + 0)]
          simp only [sumCoerce0, List.map_cons, List.sum_cons, ht, Option.getD_none,
            JNum.fin.injEq]
          ring
      | inf => exact absurd hn hv.1
      | ninf => exact absurd hn hv.2

/-- The minimum fold over finite numbers computes the rational minimum
fold. -/
theorem min_fold_fin (qs : List ℚ) :
    ∀ q : ℚ,
      (qs.map JNum.fin).foldl (fun m x => if jlt x m then x else m) (.fin q) =
      .fin (qs.foldl min q) := by
  induction qs with
  | nil => intro q; rfl
  | cons x rest ih =>
      intro q
      simp only [List.map_cons, List.foldl_cons, jlt_fin, decide_eq_true_eq]
      by_cases hlt : x < q
      · rw [if_pos hlt, show min q x = x from min_eq_right (le_of_lt hlt)]
        exact ih x
      · rw [if_neg hlt, show min q x = q from min_eq_left (le_of_not_lt hlt)]
        exact ih q

/-- The maximum fold over finite numbers computes the rational maximum
fold. -/
theorem max_fold_fin (qs : List ℚ) :
    ∀ q : ℚ,
      (qs.map JNum.fin).foldl (fun m x => if jlt m x then x else m) (.fin q) =
      .fin (qs.foldl max q) := by
  induction qs with
  | nil => intro q; rfl
  | cons x rest ih =>
      intro q
      simp only [List.map_cons, List.foldl_cons, jlt_fin, decide_eq_true_eq]
      by_cases hlt : q < x
      · rw [if_pos hlt, show max q x = x from max_eq_right (le_of_lt hlt)]
        exact ih x
      · rw [if_neg hlt, show max q x = q from max_eq_left (le_of_not_lt hlt)]
        exact ih q

/-- Insertion into a mapped run commutes with the finite wrapper. -/
theorem insertJ_map_fin (x : ℚ) (l : List ℚ) :
    insertJ (.fin x) (l.map JNum.fin) = (insertQ x l).map JNum.fin := by
  induction l with
  | nil => rfl
  | cons y ys ih =>
      simp only [List.map_cons, insertJ, insertQ, jlt_fin, decide_eq_true_eq]
      by_cases hlt : x < y
      · rw [if_pos hlt, if_pos hlt]
        rfl
      · rw [if_neg hlt, if_neg hlt, ih]
        rfl

/-- Sorting a mapped run commutes with the finite wrapper. -/
theorem sortJ_map_fin (qs : List ℚ) :
    sortJ (qs.map JNum.fin) = (sortQ qs).map JNum.fin := by
  induction qs with
  | nil => rfl
  | cons x rest ih =>
      simp only [sortQ, sortJ, List.map_cons, List.foldr_cons] at ih ⊢
      rw [ih, insertJ_map_fin]

/-- Indexing a mapped run with a finite default. -/
theorem getD_map_fin (l : List ℚ) :
    ∀ i : ℕ, (l.map JNum.fin).getD i (.fin 0) = .fin (l.getD i 0) := by
  induction l with
  | nil => intro i; cases i <;> rfl
  | cons x xs ih =>
      intro i
      cases i with
      | zero => rfl
      | succ n => exact ih n

/-- The plain sum fold over finite numbers. -/
theorem sum_fold_fin (qs : List ℚ) :
    ∀ a : ℚ, (qs.map JNum.fin).foldl jadd (.fin a) = .fin (a + qs.sum) := by
  induction qs with
  | nil => intro a; simp
  | cons x rest ih =>
      intro a
      simp only [List.map_cons, List.foldl_cons, jadd_fin]
      rw [ih (a + x)]
      simp only [List.sum_cons, JNum.fin.injEq]
      ring

/-- The squared-deviation fold over finite numbers. -/
theorem sq_fold_fin (qs : List ℚ) (c : ℚ) :
    ∀ a : ℚ,
      (qs.map JNum.fin).foldl
        (fun s v => jadd s (jmul (jsub v (.fin c)) (jsub v (.fin c)))) (.fin a) =
      .fin (a + (qs.map (fun q => (q - c) * (q - c))).sum) := by
  induction qs with
  | nil => intro a; simp
  | cons x rest ih =>
      intro a
      simp only [List.map_cons, List.foldl_cons, jsub_fin, jmul_fin, jadd_fin]
      rw [ih (a + (x - c) * (x - c))]
      simp only [List.sum_cons, JNum.fin.injEq]
      ring

/-- SUM on a scalar working set: the coerce-to-zero sum. -/
theorem sum_spec (ws : List Value)
    (h1 : ∀ v ∈ ws, v.isObjLike = false)
    (h2 : ∀ v ∈ ws, toNum v ≠ .inf ∧ toNum v ≠ .ninf) :
    executeSum ws = .ok (.fin (sumCoerce0 ws)) := by
  cases ws with
  | nil => rfl
  | cons first rest =>
      have hfe : first.isObjLike = false := h1 first (List.mem_cons_self first rest)
      have hc : (!first.isObjLike) = true := by rw [hfe]; rfl
      rw [show executeSum (first :: rest) =
          .ok ((first :: rest).foldl (fun s v =>
            jadd s (match denan (toNum v) with | some n => n | none => JNum.fin 0))
            (.fin 0)) from by simp [executeSum, hc]]
      rw [sum_fold_coerce (first :: rest) h2 0, zero_add]

/-- AVERAGE on a scalar working set: the coerce-to-zero sum divided by
the full working-set length. -/
theorem average_spec (ws : List Value)
    (h1 : ∀ v ∈ ws, v.isObjLike = false)
    (h2 : ∀ v ∈ ws, toNum v ≠ .inf ∧ toNum v ≠ .ninf) :
    executeAverage ws =
      .ok (.fin (if ws.length = 0 then 0 else sumCoerce0 ws / ws.length)) := by
  cases ws with
  | nil => rfl
  | cons first rest =>
      have hlen : (((first :: rest).length : ℚ)) ≠ 0 := Nat.cast_ne_zero.mpr (by simp)
      simp only [executeAverage]
      rw [sum_spec (first :: rest) h1 h2]
      simp only [except_bind_ok]
      rw [jdiv_fin _ _ hlen, if_neg (by simp : ¬ (first :: rest).length = 0)]

/-- MIN on a scalar working set: the minimum of the numeric values, 0
when none. -/
theorem min_spec (ws : List Value)
    (h1 : ∀ v ∈ ws, v.isObjLike = false)
    (h2 : ∀ v ∈ ws, toNum v ≠ .inf ∧ toNum v ≠ .ninf) :
    executeMin ws = .ok (.fin (minOr0 (numericOf ws))) := by
  cases ws with
  | nil => rfl
  | cons first rest =>
      have hfe : first.isObjLike = false := h1 first (List.mem_cons_self first rest)
      simp only [executeMin]
      rw [extractNums_scalar _ first rest hfe, filterMap_denan_eq _ h2]
      simp only [except_bind_ok]
      cases hq : numericOf (first :: rest) with
      | nil => rfl
      | cons q qrest =>
          simp only [List.map_cons]
          rw [min_fold_fin qrest q]
          rfl

/-- MAX on a scalar working set: the maximum of the numeric values, 0
when none. -/
theorem max_spec (ws : List Value)
    (h1 : ∀ v ∈ ws, v.isObjLike = false)
    (h2 : ∀ v ∈ ws, toNum v ≠ .inf ∧ toNum v ≠ .ninf) :
    executeMax ws = .ok (.fin (maxOr0 (numericOf ws))) := by
  cases ws with
  | nil => rfl
  | cons first rest =>
      have hfe : first.isObjLike = false := h1 first (List.mem_cons_self first rest)
      simp only [executeMax]
      rw [extractNums_scalar _ first rest hfe, filterMap_denan_eq _ h2]
      simp only [except_bind_ok]
      cases hq : numericOf (first :: rest) with
      | nil => rfl
      | cons q qrest =>
          simp only [List.map_cons]
          rw [max_fold_fin qrest q]
          rfl

/-- RANGE on a scalar working set: maximum minus minimum of the numeric
values. -/
theorem range_spec (ws : List Value)
    (h1 : ∀ v ∈ ws, v.isObjLike = false)
    (h2 : ∀ v ∈ ws, toNum v ≠ .inf ∧ toNum v ≠ .ninf) :
    executeRange ws =
      .ok (.fin (maxOr0 (numericOf ws) - minOr0 (numericOf ws))) := by
  simp only [executeRange]
  rw [min_spec ws h1 h2]
  simp only [except_bind_ok]
  rw [max_spec ws h1 h2]
  simp only [except_bind_ok]
  rw [jsub_fin]

/-- MEDIAN on a scalar working set: the median of the numeric values, 0
when none. -/
theorem median_spec (ws : List Value)
    (h1 : ∀ v ∈ ws, v.isObjLike = false)
    (h2 : ∀ v ∈ ws, toNum v ≠ .inf ∧ toNum v ≠ .ninf) :
    executeMedian ws = .ok (.fin (medianOf (numericOf ws))) := by
  cases ws with
  | nil => rfl
  | cons first rest =>
      have hfe : first.isObjLike = false := h1 first (List.mem_cons_self first rest)
      simp only [executeMedian]
      rw [extractNums_scalar _ first rest hfe, filterMap_denan_eq _ h2]
      simp only [except_bind_ok]
      cases hq : numericOf (first :: rest) with
      | nil => rfl
      | cons q qrest =>
          rw [if_neg (by simp : ¬ (((q :: qrest).map JNum.fin).isEmpty = true))]
          rw [show (q :: qrest).map JNum.fin = List.map JNum.fin (q :: qrest) from rfl,
            sortJ_map_fin]
          simp only [List.length_map, getD_map_fin]
          rw [show medianOf (q :: qrest) =
              (if (sortQ (q :: qrest)).length % 2 = 0 then
                ((sortQ (q :: qrest)).getD ((sortQ (q :: qrest)).length / 2 - 1) 0 +
                 (sortQ (q :: qrest)).getD ((sortQ (q :: qrest)).length / 2) 0) / 2
              else (sortQ (q :: qrest)).getD ((sortQ (q :: qrest)).length / 2) 0) from by
            simp [medianOf]]
          by_cases hpar : (sortQ (q :: qrest)).length % 2 = 0
          · rw [if_pos hpar, if_pos hpar, jadd_fin,
              jdiv_fin _ _ (by norm_num : (2 : ℚ) ≠ 0)]
          · rw [if_neg hpar, if_neg hpar]

/-- VARIANCE on a scalar working set: the sample variance of the
numeric values, guarded to 0 on degenerate sizes. -/
theorem variance_spec (ws : List Value)
    (h1 : ∀ v ∈ ws, v.isObjLike = false)
    (h2 : ∀ v ∈ ws, toNum v ≠ .inf ∧ toNum v ≠ .ninf) :
    executeVariance ws = .ok (.fin (varianceOf ws.length (numericOf ws))) := by
  cases ws with
  | nil => rfl
  | cons first rest =>
      have hfe : first.isObjLike = false := h1 first (List.mem_cons_self first rest)
      by_cases hlen : (first :: rest).length ≤ 1
      · unfold executeVariance
        rw [if_pos hlen]
        unfold varianceOf
        rw [if_pos hlen]
      · unfold executeVariance
        rw [if_neg hlen]
        rw [extractNums_scalar _ first rest hfe, filterMap_denan_eq _ h2]
        simp only [except_bind_ok, List.length_map]
        by_cases hql : (numericOf (first :: rest)).length ≤ 1
        · rw [if_pos hql]
          unfold varianceOf
          rw [if_neg hlen, if_pos hql]
        · rw [if_neg hql]
          have hq0 : (((numericOf (first :: rest)).length : ℚ)) ≠ 0 :=
            Nat.cast_ne_zero.mpr (by omega)
          have hq1 : (((numericOf (first :: rest)).length : ℚ)) - 1 ≠ 0 := by
            have h2c : (2 : ℚ) ≤ ((numericOf (first :: rest)).length : ℚ) := by
              exact_mod_cast (by omega : 2 ≤ (numericOf (first :: rest)).length)
            intro hc
            linarith
          rw [sum_fold_fin (numericOf (first :: rest)) 0, zero_add]
          rw [jdiv_fin _ _ hq0]
          rw [sq_fold_fin (numericOf (first :: rest)) _ 0, zero_add]
          rw [jdiv_fin _ _ hq1]
          unfold varianceOf
          rw [if_neg hlen, if_neg hql]

/-- C5 counterexample: MIN over the working set holding the string x
and the number 5 returns 5, not 0 — the non-numeric element is excluded
from the computation, not coerced to 0 as the claim states. -/
theorem min_nonnumeric_not_coerced_to_zero :
    executeMin [Value.vstr "x", .vnum (.fin 5)] = .ok (.fin 5) ∧
    (JNum.fin 5 : JNum) ≠ .fin 0 :=
  ⟨by decide, by decide⟩

/-- C5 amended: over a working set of scalar elements none of which
coerces to an infinity, SUM coerces non-numeric elements to 0 (and
AVERAGE divides that sum by the full working-set length), while MIN,
MAX, RANGE, MEDIAN and VARIANCE exclude non-numeric elements from the
computation entirely, yielding 0 when no numeric element remains; in
every case the result is a finite number, never a NaN. -/
theorem numeric_aggregates_coerce_or_exclude (ws : List Value)
    (h1 : ∀ v ∈ ws, v.isObjLike = false)
    (h2 : ∀ v ∈ ws, toNum v ≠ .inf ∧ toNum v ≠ .ninf) :
    executeSum ws = .ok (.fin (sumCoerce0 ws)) ∧
    executeAverage ws =
      .ok (.fin (if ws.length = 0 then 0 else sumCoerce0 ws / ws.length)) ∧
    executeMin ws = .ok (.fin (minOr0 (numericOf ws))) ∧
    executeMax ws = .ok (.fin (maxOr0 (numericOf ws))) ∧
    executeRange ws =
      .ok (.fin (maxOr0 (numericOf ws) - minOr0 (numericOf ws))) ∧
    executeMedian ws = .ok (.fin (medianOf (numericOf ws))) ∧
    executeVariance ws = .ok (.fin (varianceOf ws.length (numericOf ws))) :=
  ⟨sum_spec ws h1 h2, average_spec ws h1 h2, min_spec ws h1 h2, max_spec ws h1 h2,
   range_spec ws h1 h2, median_spec ws h1 h2, variance_spec ws h1 h2⟩

/-- Witness for C5's amended statement on the working set holding the
string x and the number 5: SUM coerces the string to 0, while MIN
excludes it (minimum 5, not 0). -/
theorem numeric_aggregates_coerce_or_exclude_witness :
    executeSum [Value.vstr "x", .vnum (.fin 5)] =
      .ok (.fin (sumCoerce0 [Value.vstr "x", .vnum (.fin 5)])) ∧
    executeAverage [Value.vstr "x", .vnum (.fin 5)] =
      .ok (.fin (if ([Value.vstr "x", Value.vnum (.fin 5)] : List Value).length = 0 then 0
        else sumCoerce0 [Value.vstr "x", .vnum (.fin 5)] /
          ([Value.vstr "x", Value.vnum (.fin 5)] : List Value).length)) ∧
    executeMin [Value.vstr "x", .vnum (.fin 5)] =
      .ok (.fin (minOr0 (numericOf [Value.vstr "x", .vnum (.fin 5)]))) ∧
    executeMax [Value.vstr "x", .vnum (.fin 5)] =
      .ok (.fin (maxOr0 (numericOf [Value.vstr "x", .vnum (.fin 5)]))) ∧
    executeRange [Value.vstr "x", .vnum (.fin 5)] =
      .ok (.fin (maxOr0 (numericOf [Value.vstr "x", .vnum (.fin 5)]) -
        minOr0 (numericOf [Value.vstr "x", .vnum (.fin 5)]))) ∧
    executeMedian [Value.vstr "x", .vnum (.fin 5)] =
      .ok (.fin (medianOf (numericOf [Value.vstr "x", .vnum (.fin 5)]))) ∧
    executeVariance [Value.vstr "x", .vnum (.fin 5)] =
      .ok (.fin (varianceOf ([Value.vstr "x", Value.vnum (.fin 5)] : List Value).length
        (numericOf [Value.vstr "x", .vnum (.fin 5)]))) :=
  numeric_aggregates_coerce_or_exclude [Value.vstr "x", .vnum (.fin 5)]
    (by decide) (by decide)

end SSOQL

